import Mathlib

/-!
# gongo `parser/struct_parser.go`

A shallow embedding of the query-value parser of `lcapuano-app/gongo`:

* `getPropValue`     – alias of a struct field (tags `gongo`, `bson`, `json`);
* `getFieldByProp`   – resolution of a dotted path against a struct type;
* `parseToPrimitive` – kind-directed conversion of a raw string;
* `parsePropValue`   – the entry point.

The Go standard-library functions the file calls (`strings.Split`, `strings.Join`,
`reflect.StructTag.Get`, `strconv.ParseBool`, `strconv.ParseUint`, `strconv.ParseInt`)
are embedded from their Go sources.  `strconv.ParseFloat`, `strconv.ParseComplex` and
`primitive.ObjectIDFromHex` are parameters (`Extern`).

Conventions: a Go `string` is the list of its characters; Go functions that may
panic return an `Option`, `none` being the panic; a Go `error` result is an
`Option GoError`, `none` being `nil`; `uint64`/`int64` arithmetic is done on
`Nat`/`Int` with explicit wrap-around.
-/

namespace Gongo

/-! ## Strings -/

/-- Go `string`. -/
abbrev GoString := List Char

/-- Go `strings.Split(s, sep)` for a one-byte separator `sep` (the program only
splits on `"."` and `","`): the substrings between the occurrences of `sep`.
The result always has at least one element. -/
def Split (s : GoString) (sep : Char) : List GoString :=
  match s with
  | [] => [[]]
  | c :: cs =>
    if c = sep then [] :: Split cs sep
    else
      match Split cs sep with
      | [] => [[c]]
      | h :: t => (c :: h) :: t

/-- Go `strings.Join(elems, sep)`. -/
def Join : List GoString → GoString → GoString
  | [], _ => []
  | [a], _ => a
  | a :: b :: rest, sep => a ++ sep ++ Join (b :: rest) sep

/-! ## Errors -/

/-- Go `*strconv.NumError`; `Err` is the message of the wrapped error. -/
structure NumError where
  Func : GoString
  Num : GoString
  Err : GoString
  deriving DecidableEq, Repr

/-- Go `error` values that the program can return. -/
inductive GoError where
  /-- The result of `errors.New(msg)`. -/
  | errorString (msg : GoString)
  /-- A `*strconv.NumError`. -/
  | numError (e : NumError)
  deriving DecidableEq, Repr

/-- Go `errors.New`. -/
def errorsNew (msg : GoString) : GoError := GoError.errorString msg

/-- Message of `strconv.ErrRange`. -/
def ErrRange : GoString := "value out of range".toList

/-- Message of `strconv.ErrSyntax`. -/
def ErrSyntax : GoString := "invalid syntax".toList

/-- Go `strconv.syntaxError`. -/
def syntaxError (fn str : GoString) : NumError := ⟨fn, str, ErrSyntax⟩

/-- Go `strconv.rangeError`. -/
def rangeError (fn str : GoString) : NumError := ⟨fn, str, ErrRange⟩

/-- Go `strconv.bitSizeError`; the message is `"invalid bit size " + Itoa(bitSize)`. -/
def bitSizeError (fn str : GoString) (bitSize : Nat) : NumError :=
  ⟨fn, str, "invalid bit size ".toList ++ Nat.toDigits 10 bitSize⟩

/-! ## `reflect` -/

/-- Go `reflect.Kind`. -/
inductive Kind where
  | Invalid | Bool | Int | Int8 | Int16 | Int32 | Int64
  | Uint | Uint8 | Uint16 | Uint32 | Uint64 | Uintptr
  | Float32 | Float64 | Complex64 | Complex128
  | Array | Chan | Func | Interface | Map | Pointer | Slice
  | String | Struct | UnsafePointer
  deriving DecidableEq, Repr

/-- Go `reflect.StructTag` in its conventional form `key:"value" key:"value" ...`,
as the list of its key/value pairs. -/
abbrev StructTag := List (GoString × GoString)

/-- Go `reflect.StructTag.Get`: the value of the first pair with the key, or `""`. -/
def StructTag.Get (tag : StructTag) (key : GoString) : GoString :=
  match tag.find? (fun kv => kv.1 = key) with
  | some kv => kv.2
  | none => []

mutual
/-- Go `reflect.Type` (non-nil): its kind and, for a struct, its declared fields. -/
inductive RType where
  | mk (kind : Kind) (fields : List FieldDecl)
/-- A field declaration of a struct type: name, declared type, tag. -/
inductive FieldDecl where
  | mk (Name : GoString) (Typ : RType) (Tag : StructTag)
end

/-- Go `reflect.Type.Kind`. -/
def RType.Kind : RType → Kind
  | .mk k _ => k

/-- Declared fields of a type. -/
def RType.fields : RType → List FieldDecl
  | .mk _ fs => fs

/-- Go `reflect.Type.NumField`. -/
def RType.NumField (rt : RType) : Nat := rt.fields.length

/-- Go `reflect.StructField`: `Typ` is the field's `Type` (`none` is the nil
interface of the zero value), `Index` the index sequence for `Type.FieldByIndex`. -/
structure StructField where
  Name : GoString
  Typ : Option RType
  Tag : StructTag
  Index : List Nat

/-- The zero value of `reflect.StructField`. -/
def StructField.zero : StructField := ⟨[], none, [], []⟩

/-- The descriptor `rt.Field(i)` builds from the `i`-th declaration. -/
def FieldDecl.toField (i : Nat) : FieldDecl → StructField
  | .mk n t tg => ⟨n, some t, tg, [i]⟩

/-- Go `reflect.Type.Field(i)`; panics when `i` is out of range. -/
def RType.Field (rt : RType) (i : Nat) : Option StructField :=
  (rt.fields.get? i).map (FieldDecl.toField i)

/-! ## The program's constants -/

/-- Constant `bsonTag`. -/
def bsonTag : GoString := "bson".toList

/-- Constant `jsonTag`. -/
def jsonTag : GoString := "json".toList

/-- Constant `gongoTag`. -/
def gongoTag : GoString := "gongo".toList

/-! ## `getPropValue` -/

/-- Go `strings.Split(s, ",")[0]`: `Split` never returns an empty slice, so the
index expression does not panic. -/
def firstToken (s : GoString) : GoString := (Split s ',').headD []

/-- Source `getPropValue` (lines 89-105). -/
def getPropValue (field : StructField) : GoString :=
  let value := firstToken (field.Tag.Get gongoTag)
  if value ≠ [] then value
  else
    let value := firstToken (field.Tag.Get bsonTag)
    if value ≠ [] then value
    else firstToken (field.Tag.Get jsonTag)

/-! ## `getFieldByProp` -/

mutual
/-- Source `getFieldByProp` from line 50 on, `rt` being non-nil: the kind check and
the loop over the fields. -/
def getFieldByPropType (prop : GoString) : RType → Option (StructField × Option GoError)
  | .mk kind fields =>
    let props := Split prop '.'
    if kind ≠ Kind.Struct then
      some (StructField.zero, some (errorsNew "bad type".toList))
    else
      getFieldByPropLoop prop props 0 fields
/-- The loop of `getFieldByProp` (lines 54-79) from index `i` on, over the
declarations `i, i+1, ...` still to visit; after the loop, line 81. -/
def getFieldByPropLoop (prop : GoString) (props : List GoString) :
    Nat → List FieldDecl → Option (StructField × Option GoError)
  | _, [] => some (StructField.zero, none)
  | i, (.mk n t tg) :: rest =>
    let field : StructField := ⟨n, some t, tg, [i]⟩
    let v := getPropValue field
    match props with
    | [] => none
    | p0 :: _ =>
      if v ≠ p0 then getFieldByPropLoop prop props (i + 1) rest
      else if props.length = 1 then some (field, none)
      else
        let kind := t.Kind
        if kind = Kind.Struct ∨ kind = Kind.Interface then
          let props1 := props.drop 1
          if props1.length ≥ 1 then
            getFieldByPropType (Join props1 ['.']) t
          else some (field, some (errorsNew ("invalid prop query: ".toList ++ prop)))
        else some (field, some (errorsNew ("invalid prop query: ".toList ++ prop)))
end

/-- Source `getFieldByProp` (lines 42-82).  The interface value `s` is given by its
dynamic type (`reflect.TypeOf(s)`), `none` for nil; `rt.Kind()` on a nil `rt`
panics. -/
def getFieldByProp (prop : GoString) (s : Option RType) (rt : Option RType) :
    Option (StructField × Option GoError) :=
  let rt := if rt.isNone then s else rt
  match rt with
  | none => none
  | some t => getFieldByPropType prop t

/-! ## `strconv` -/

/-- Go `strconv.ParseBool`. -/
def ParseBool (str : GoString) : Bool × Option NumError :=
  if str = "1".toList ∨ str = "t".toList ∨ str = "T".toList ∨ str = "true".toList
      ∨ str = "TRUE".toList ∨ str = "True".toList then (true, none)
  else if str = "0".toList ∨ str = "f".toList ∨ str = "F".toList ∨ str = "false".toList
      ∨ str = "FALSE".toList ∨ str = "False".toList then (false, none)
  else (false, some (syntaxError "ParseBool".toList str))

/-- Go `strconv.lower`: `c | ('x' - 'X')` on a byte. -/
def lower (c : Nat) : Nat := c ||| 0x20

/-- Constant `maxUint64` of `strconv`. -/
def maxUint64 : Nat := 2 ^ 64 - 1

/-- The digit loop of `strconv.ParseUint` for base 10, `n` being the `uint64`
accumulated so far.  A character outside ASCII stands for bytes above `'z'`, which
take the same `default` branch. -/
def ParseUintLoop (s0 : GoString) (cutoff maxVal : Nat) : GoString → Nat → Nat × Option NumError
  | [], n => (n, none)
  | ch :: cs, n =>
    let c := ch.toNat
    let dOpt : Option Nat :=
      if '0'.toNat ≤ c ∧ c ≤ '9'.toNat then some (c - '0'.toNat)
      else if 'a'.toNat ≤ lower c ∧ lower c ≤ 'z'.toNat then some (lower c - 'a'.toNat + 10)
      else none
    match dOpt with
    | none => (0, some (syntaxError "ParseUint".toList s0))
    | some d =>
      if d ≥ 10 then (0, some (syntaxError "ParseUint".toList s0))
      else if n ≥ cutoff then (maxVal, some (rangeError "ParseUint".toList s0))
      else
        let n := (n * 10) % 2 ^ 64
        let n1 := (n + d) % 2 ^ 64
        if n1 < n ∨ n1 > maxVal then (maxVal, some (rangeError "ParseUint".toList s0))
        else ParseUintLoop s0 cutoff maxVal cs n1

/-- Go `strconv.ParseUint(s, 10, bitSize)`, the base fixed to 10 as in every call
of the program. -/
def ParseUint (s : GoString) (bitSize : Nat) : Nat × Option NumError :=
  if s = [] then (0, some (syntaxError "ParseUint".toList s))
  else
    let s0 := s
    let bitSize1 := if bitSize = 0 then 64 else bitSize
    if bitSize1 > 64 then (0, some (bitSizeError "ParseUint".toList s0 bitSize1))
    else
      let cutoff := maxUint64 / 10 + 1
      let maxVal := ((1 <<< bitSize1) % 2 ^ 64 + 2 ^ 64 - 1) % 2 ^ 64
      ParseUintLoop s0 cutoff maxVal s 0

/-- Go conversion `int64(u)` of a `uint64`. -/
def toInt64 (u : Nat) : Int :=
  if u % 2 ^ 64 < 2 ^ 63 then ((u % 2 ^ 64 : Nat) : Int) else ((u % 2 ^ 64 : Nat) : Int) - 2 ^ 64

/-- Go unary minus on `int64` (wraps at `-2^63`). -/
def negInt64 (x : Int) : Int := (-x + 2 ^ 63) % 2 ^ 64 - 2 ^ 63

/-- The range check that ends `strconv.ParseInt`, from `if bitSize == 0` on: `un` is
the magnitude `ParseUint` returned, `neg` the sign, `s0` the whole input. -/
def ParseIntRange (s0 : GoString) (neg : Bool) (un : Nat) (bitSize : Nat) :
    Int × Option NumError :=
  let bitSize1 := if bitSize = 0 then 64 else bitSize
  let cutoff := (1 <<< (bitSize1 - 1)) % 2 ^ 64
  if neg = false ∧ un ≥ cutoff then
    (toInt64 ((cutoff + 2 ^ 64 - 1) % 2 ^ 64), some (rangeError "ParseInt".toList s0))
  else if neg = true ∧ un > cutoff then
    (negInt64 (toInt64 cutoff), some (rangeError "ParseInt".toList s0))
  else
    let n := toInt64 un
    (if neg = true then negInt64 n else n, none)

/-- Go `strconv.ParseInt(s, 10, bitSize)`: the sign is picked off, the magnitude goes
through `ParseUint`, whose errors other than `ErrRange` are returned with the value 0
under the name `ParseInt`. -/
def ParseInt (s : GoString) (bitSize : Nat) : Int × Option NumError :=
  match s with
  | [] => (0, some (syntaxError "ParseInt".toList s))
  | c :: cs =>
    let s0 := s
    let neg : Bool := if c = '+' then false else if c = '-' then true else false
    let s1 := if c = '+' then cs else if c = '-' then cs else s
    match ParseUint s1 bitSize with
    | (un, some e) =>
      if e.Err ≠ ErrRange then (0, some ⟨"ParseInt".toList, s0, e.Err⟩)
      else ParseIntRange s0 neg un bitSize
    | (un, none) => ParseIntRange s0 neg un bitSize

/-! ## `parseToPrimitive` and `parsePropValue` -/

/-- A Go `any` result of the parser, by dynamic type.  A `float64` is given by its
bits, a `complex128` by the bits of its two parts, an `ObjectID` by its bytes. -/
inductive Value where
  | nil
  | string (s : GoString)
  | bool (b : Bool)
  | int64 (i : Int)
  | uint64 (n : Nat)
  | float64 (bits : Nat)
  | complex128 (re im : Nat)
  | objectID (bytes : List Nat)
  deriving DecidableEq, Repr

/-- The library functions left abstract: `strconv.ParseFloat`, `strconv.ParseComplex`
(string, bit size) and `primitive.ObjectIDFromHex`. -/
structure Extern where
  ParseFloat : GoString → Nat → Nat × Option GoError
  ParseComplex : GoString → Nat → (Nat × Nat) × Option GoError
  ObjectIDFromHex : GoString → List Nat × Option GoError

/-- A `strconv` error result as a Go `error` interface. -/
def asError (e : Option NumError) : Option GoError := e.map GoError.numError

/-- Source `parseToPrimitive` (lines 109-168); `field.Type.Kind()` panics on the nil
`Type` of a zero-value descriptor. -/
def parseToPrimitive (ext : Extern) (field : StructField) (val : GoString) :
    Option (Value × Option GoError) :=
  match field.Typ with
  | none => none
  | some t =>
    let kind := t.Kind
    if kind = Kind.String then some (Value.string val, none)
    else
      match kind with
      | Kind.Array | Kind.Map | Kind.Slice => some (Value.string "MAP".toList, none)
      | Kind.Bool =>
        match ParseBool val with
        | (res, err) =>
          if err ≠ none then some (Value.bool true, asError err)
          else some (Value.bool res, asError err)
      | Kind.Complex64 =>
        some (Value.complex128 (ext.ParseComplex val 64).1.1 (ext.ParseComplex val 64).1.2,
          (ext.ParseComplex val 64).2)
      | Kind.Complex128 =>
        some (Value.complex128 (ext.ParseComplex val 128).1.1 (ext.ParseComplex val 128).1.2,
          (ext.ParseComplex val 128).2)
      | Kind.Float32 => some (Value.float64 (ext.ParseFloat val 32).1, (ext.ParseFloat val 32).2)
      | Kind.Float64 => some (Value.float64 (ext.ParseFloat val 64).1, (ext.ParseFloat val 64).2)
      | Kind.Int | Kind.Int64 => some (Value.int64 (ParseInt val 64).1, asError (ParseInt val 64).2)
      | Kind.Int8 => some (Value.int64 (ParseInt val 8).1, asError (ParseInt val 8).2)
      | Kind.Int16 => some (Value.int64 (ParseInt val 16).1, asError (ParseInt val 16).2)
      | Kind.Int32 => some (Value.int64 (ParseInt val 32).1, asError (ParseInt val 32).2)
      | Kind.Interface | Kind.Struct => some (Value.string "STRUCT".toList, none)
      | Kind.Uint | Kind.Uint64 =>
        some (Value.uint64 (ParseUint val 64).1, asError (ParseUint val 64).2)
      | Kind.Uint8 => some (Value.uint64 (ParseUint val 8).1, asError (ParseUint val 8).2)
      | Kind.Uint16 => some (Value.uint64 (ParseUint val 16).1, asError (ParseUint val 16).2)
      | Kind.Uint32 => some (Value.uint64 (ParseUint val 32).1, asError (ParseUint val 32).2)
      | _ => some (Value.string val, none)

/-- Source `parsePropValue` (lines 22-35); the named result `parsedValue` is still
nil when the error of `getFieldByProp` is returned. -/
def parsePropValue (ext : Extern) (prop strValue : GoString) (s : Option RType) :
    Option (Value × Option GoError) :=
  match getFieldByProp prop s none with
  | none => none
  | some (field, err) =>
    if err ≠ none then some (Value.nil, err)
    else if prop = "_id".toList then
      some (Value.objectID (ext.ObjectIDFromHex strValue).1, (ext.ObjectIDFromHex strValue).2)
    else parseToPrimitive ext field strValue

/-! ## Example types -/

/-- The Go type `string`. -/
def exString : RType := RType.mk Kind.String []

/-- The Go type `interface{}`. -/
def exAny : RType := RType.mk Kind.Interface []

/-- The Go type `struct { City string; Zip string }` with json tags (Zip lists an
option after the alias). -/
def exAddress : RType :=
  RType.mk Kind.Struct
    [FieldDecl.mk "City".toList exString [(jsonTag, "city".toList)],
     FieldDecl.mk "Zip".toList exString [(jsonTag, "zip,omitempty".toList)]]

/-- A Go struct type with a leaf field, a nested struct, a second field aliased
`name`, an interface field and a field whose alias contains a dot:
`Name string (json name)`, `Addr Address (bson addr)`, `Nick string (json name)`,
`Any interface{} (json any)`, `Dotted string (json a.b)`. -/
def exUser : RType :=
  RType.mk Kind.Struct
    [FieldDecl.mk "Name".toList exString [(jsonTag, "name".toList)],
     FieldDecl.mk "Addr".toList exAddress [(bsonTag, "addr".toList)],
     FieldDecl.mk "Nick".toList exString [(jsonTag, "name".toList)],
     FieldDecl.mk "Any".toList exAny [(jsonTag, "any".toList)],
     FieldDecl.mk "Dotted".toList exString [(jsonTag, "a.b".toList)]]

/-! ## Specification-side notions for the integer claims -/

/-- The number that a string of decimal digits denotes (`'0'` is byte 48). -/
def decValue (ds : List Char) : Nat := ds.foldl (fun m c => 10 * m + (c.toNat - 48)) 0

/-- The integer that the literal `sign ++ digits` denotes, `sign` being empty, `+` or `-`. -/
def literalValue (sign ds : List Char) : Int :=
  if sign = ['-'] then -((decValue ds : Nat) : Int) else ((decValue ds : Nat) : Int)

/-- Bit width that `parseToPrimitive` passes to `ParseInt` for a signed integer kind. -/
def signedBits : Kind → Option Nat
  | Kind.Int => some 64
  | Kind.Int8 => some 8
  | Kind.Int16 => some 16
  | Kind.Int32 => some 32
  | Kind.Int64 => some 64
  | _ => none

/-- Bit width that `parseToPrimitive` passes to `ParseUint` for an unsigned integer
kind. -/
def unsignedBits : Kind → Option Nat
  | Kind.Uint => some 64
  | Kind.Uint8 => some 8
  | Kind.Uint16 => some 16
  | Kind.Uint32 => some 32
  | Kind.Uint64 => some 64
  | _ => none

/-- An instance of the abstract library functions for closed examples: each fails
with an error and a zero value. -/
def exExtern : Extern :=
  { ParseFloat := fun _ _ => (0, some (errorsNew "unused".toList)),
    ParseComplex := fun _ _ => ((0, 0), some (errorsNew "unused".toList)),
    ObjectIDFromHex := fun _ => ([], some (errorsNew "unused".toList)) }

/-- A field `Age int8` tagged `json:"age"`, as `Field(0)` returns it. -/
def exAge : StructField :=
  ⟨"Age".toList, some (RType.mk Kind.Int8 []), [(jsonTag, "age".toList)], [0]⟩

/-- A field `Count int64` tagged `json:"count"`, as `Field(0)` returns it. -/
def exCount : StructField :=
  ⟨"Count".toList, some (RType.mk Kind.Int64 []), [(jsonTag, "count".toList)], [0]⟩

/-! ## Specification-side notions for the boolean and path claims -/

/-- The literals `strconv.ParseBool` documents as accepted for `true`. -/
def trueLiterals : List GoString :=
  ["1".toList, "t".toList, "T".toList, "true".toList, "TRUE".toList, "True".toList]

/-- The literals `strconv.ParseBool` documents as accepted for `false`. -/
def falseLiterals : List GoString :=
  ["0".toList, "f".toList, "F".toList, "false".toList, "FALSE".toList, "False".toList]

/-- Equality of two strings up to the case of ASCII letters. -/
def equalFold (a b : GoString) : Bool := a.map Char.toLower == b.map Char.toLower

/-- The segments `segs` resolve to the field `f` from the struct type `T` along a chain
of struct-kind fields: every segment but the last is the alias of a field of kind struct,
the first with that alias at its level, whose declared type is the next level; the last
segment is the alias of `f`, the first field with that alias at the last level. -/
def ChainMatches : List GoString → RType → StructField → Prop
  | [], _, _ => False
  | [p], T, f =>
    T.Kind = Kind.Struct ∧ ∃ i, T.Field i = some f ∧ getPropValue f = p
      ∧ ∀ j, j < i → ∀ g, T.Field j = some g → getPropValue g ≠ p
  | p :: q :: qs, T, f =>
    T.Kind = Kind.Struct ∧ ∃ i g U, T.Field i = some g ∧ getPropValue g = p
      ∧ (∀ j, j < i → ∀ h, T.Field j = some h → getPropValue h ≠ p)
      ∧ g.Typ = some U ∧ U.Kind = Kind.Struct ∧ ChainMatches (q :: qs) U f

/-- The field declares no alias: the first comma-separated token of each of the tags
gongo, bson and json is empty (an absent tag reads as the empty string). -/
def noAlias (f : StructField) : Prop :=
  (f.Tag.Get gongoTag).takeWhile (fun c => decide (c ≠ ',')) = []
    ∧ (f.Tag.Get bsonTag).takeWhile (fun c => decide (c ≠ ',')) = []
    ∧ (f.Tag.Get jsonTag).takeWhile (fun c => decide (c ≠ ',')) = []

/-- A field `Active bool` tagged `json:"active"`, as `Field(0)` returns it. -/
def exActive : StructField :=
  ⟨"Active".toList, some (RType.mk Kind.Bool []), [(jsonTag, "active".toList)], [0]⟩

/-- A field `Tags []string` tagged `json:"tags"`, as `Field(0)` returns it. -/
def exTags : StructField :=
  ⟨"Tags".toList, some (RType.mk Kind.Slice []), [(jsonTag, "tags".toList)], [0]⟩

/-- A Go struct type with an untagged field after a tagged one:
`ID string (bson _id)`, `Secret string` (no tag), `Hidden string` (no tag). -/
def exDoc : RType :=
  RType.mk Kind.Struct
    [FieldDecl.mk "ID".toList exString [(bsonTag, "_id".toList)],
     FieldDecl.mk "Secret".toList exString [],
     FieldDecl.mk "Hidden".toList exString []]

/-! ## Lemmas on `Split` and `Join` -/

theorem Split_ne_nil (s : GoString) (sep : Char) : Split s sep ≠ [] := by
  cases s with
  | nil => simp [Split]
  | cons c cs =>
    unfold Split
    by_cases h : c = sep
    · simp [h]
    · simp only [h, if_false]
      cases Split cs sep <;> simp

theorem Split_head (s : GoString) (sep : Char) :
    (Split s sep).headD [] = s.takeWhile (fun c => decide (c ≠ sep)) := by
  induction s with
  | nil => simp [Split]
  | cons c cs ih =>
    unfold Split
    by_cases h : c = sep
    · simp [h]
    · simp only [h, if_false]
      have hne := Split_ne_nil cs sep
      cases hs : Split cs sep with
      | nil => exact absurd hs hne
      | cons a t =>
        rw [hs] at ih
        simp at ih
        simp [List.takeWhile, h, ih]

theorem Split_of_not_mem (a : GoString) (sep : Char) (h : sep ∉ a) : Split a sep = [a] := by
  induction a with
  | nil => simp [Split]
  | cons c cs ih =>
    have hc : c ≠ sep := fun e => h (by simp [e])
    have hcs : sep ∉ cs := fun e => h (by simp [e])
    unfold Split
    simp [hc, ih hcs]

theorem Split_append_sep (a rest : GoString) (sep : Char) (h : sep ∉ a) :
    Split (a ++ sep :: rest) sep = a :: Split rest sep := by
  induction a with
  | nil => simp [Split]
  | cons c cs ih =>
    have hc : c ≠ sep := fun e => h (by simp [e])
    have hcs : sep ∉ cs := fun e => h (by simp [e])
    rw [List.cons_append, Split]
    simp only [hc, if_false, ih hcs]

theorem Join_Split (s : GoString) (sep : Char) : Join (Split s sep) [sep] = s := by
  induction s with
  | nil => simp [Split, Join]
  | cons c cs ih =>
    unfold Split
    by_cases h : c = sep
    · have hne := Split_ne_nil cs sep
      cases hs : Split cs sep with
      | nil => exact absurd hs hne
      | cons a t =>
        rw [hs] at ih
        simp [h, hs, Join, ih]
    · simp only [h, if_false]
      have hne := Split_ne_nil cs sep
      cases hs : Split cs sep with
      | nil => exact absurd hs hne
      | cons a t =>
        rw [hs] at ih
        cases t with
        | nil => simp [Join] at ih ⊢; exact ih
        | cons b t2 => simp [Join] at ih ⊢; exact ih

theorem Split_length_two_le (s : GoString) (sep : Char) (h : sep ∈ s) :
    2 ≤ (Split s sep).length := by
  induction s with
  | nil => simp at h
  | cons c cs ih =>
    unfold Split
    by_cases hc : c = sep
    · have hne := Split_ne_nil cs sep
      simp only [hc, if_true, List.length_cons]
      have : 0 < (Split cs sep).length := List.length_pos.mpr hne
      omega
    · simp only [hc, if_false]
      have hcs : sep ∈ cs := by
        rcases List.mem_cons.mp h with e | e
        · exact absurd e.symm hc
        · exact e
      have := ih hcs
      cases hs : Split cs sep with
      | nil => rw [hs] at this; simp at this
      | cons a t => rw [hs] at this; simpa using this

/-! ## Lemmas on `getFieldByProp` -/

theorem getPropValue_toField (d : FieldDecl) (i j : Nat) :
    getPropValue (d.toField i) = getPropValue (d.toField j) := by
  cases d; rfl

theorem toField_Typ (d : FieldDecl) (i : Nat) :
    ∃ t, (d.toField i).Typ = some t := by
  cases d; exact ⟨_, rfl⟩

theorem loop_nil (prop : GoString) (props : List GoString) (i : Nat) :
    getFieldByPropLoop prop props i [] = some (StructField.zero, none) := by
  simp [getFieldByPropLoop]

theorem loop_skip_one (prop p0 : GoString) (ps : List GoString) (i : Nat) (d : FieldDecl)
    (rest : List FieldDecl) (h : getPropValue (d.toField i) ≠ p0) :
    getFieldByPropLoop prop (p0 :: ps) i (d :: rest)
      = getFieldByPropLoop prop (p0 :: ps) (i + 1) rest := by
  cases d with
  | mk n t tg =>
    simp only [FieldDecl.toField] at h
    simp [getFieldByPropLoop, h]

theorem loop_hit_single (prop p0 : GoString) (i : Nat) (d : FieldDecl)
    (rest : List FieldDecl) (h : getPropValue (d.toField i) = p0) :
    getFieldByPropLoop prop [p0] i (d :: rest) = some (d.toField i, none) := by
  cases d with
  | mk n t tg =>
    simp only [FieldDecl.toField] at h
    simp [getFieldByPropLoop, h, FieldDecl.toField]

theorem loop_hit_leaf (prop p0 q : GoString) (qs : List GoString) (i : Nat) (d : FieldDecl)
    (rest : List FieldDecl) (h : getPropValue (d.toField i) = p0)
    (hk : ∀ t, (d.toField i).Typ = some t → t.Kind ≠ Kind.Struct ∧ t.Kind ≠ Kind.Interface) :
    getFieldByPropLoop prop (p0 :: q :: qs) i (d :: rest)
      = some (d.toField i, some (errorsNew ("invalid prop query: ".toList ++ prop))) := by
  cases d with
  | mk n t tg =>
    simp only [FieldDecl.toField] at h hk
    have hk1 := hk t rfl
    simp [getFieldByPropLoop, h, FieldDecl.toField, hk1.1, hk1.2]

theorem loop_hit_nested (prop p0 q : GoString) (qs : List GoString) (i : Nat) (d : FieldDecl)
    (rest : List FieldDecl) (U : RType) (h : getPropValue (d.toField i) = p0)
    (hU : (d.toField i).Typ = some U) (hk : U.Kind = Kind.Struct ∨ U.Kind = Kind.Interface) :
    getFieldByPropLoop prop (p0 :: q :: qs) i (d :: rest)
      = getFieldByPropType (Join (q :: qs) ['.']) U := by
  cases d with
  | mk n t tg =>
    simp only [FieldDecl.toField] at h hU
    simp only [Option.some.injEq] at hU
    subst hU
    simp [getFieldByPropLoop, h, hk]

theorem loop_skip (prop p0 : GoString) (ps : List GoString) :
    ∀ (k : Nat) (ds : List FieldDecl) (i0 : Nat),
      (∀ j, j < k → ∀ d, ds.get? j = some d → getPropValue (d.toField (i0 + j)) ≠ p0) →
      getFieldByPropLoop prop (p0 :: ps) i0 ds
        = getFieldByPropLoop prop (p0 :: ps) (i0 + k) (ds.drop k) := by
  intro k
  induction k with
  | zero => intro ds i0 _; simp
  | succ k ih =>
    intro ds i0 h
    cases ds with
    | nil => simp [loop_nil]
    | cons d rest =>
      have h0 : getPropValue (d.toField i0) ≠ p0 := by
        have := h 0 (Nat.succ_pos k) d (by simp)
        simpa using this
      rw [loop_skip_one prop p0 ps i0 d rest h0]
      have hrest : ∀ j, j < k → ∀ e, rest.get? j = some e →
          getPropValue (e.toField (i0 + 1 + j)) ≠ p0 := by
        intro j hj e he
        have := h (j + 1) (Nat.succ_lt_succ hj) e (by simpa using he)
        have e2 : i0 + (j + 1) = i0 + 1 + j := by omega
        rw [e2] at this
        exact this
      rw [ih rest (i0 + 1) hrest]
      have e3 : i0 + 1 + k = i0 + (k + 1) := by omega
      rw [e3]
      simp

theorem Field_eq_some (T : RType) (i : Nat) (f : StructField) (h : T.Field i = some f) :
    ∃ d, T.fields.get? i = some d ∧ f = d.toField i := by
  unfold RType.Field at h
  cases hd : T.fields.get? i with
  | none => rw [hd] at h; simp at h
  | some d =>
    rw [hd] at h
    simp only [Option.map_some', Option.some.injEq] at h
    exact ⟨d, rfl, h.symm⟩

theorem Field_of_get (T : RType) (i : Nat) (d : FieldDecl) (h : T.fields.get? i = some d) :
    T.Field i = some (d.toField i) := by
  unfold RType.Field
  rw [h]; rfl

theorem getFieldByPropType_struct (prop : GoString) (T : RType) (hK : T.Kind = Kind.Struct) :
    getFieldByPropType prop T = getFieldByPropLoop prop (Split prop '.') 0 T.fields := by
  cases T with
  | mk k fs =>
    simp only [RType.Kind] at hK
    simp [getFieldByPropType, hK, RType.fields]

theorem getFieldByPropType_not_struct (prop : GoString) (T : RType) (hK : T.Kind ≠ Kind.Struct) :
    getFieldByPropType prop T = some (StructField.zero, some (errorsNew "bad type".toList)) := by
  cases T with
  | mk k fs =>
    simp only [RType.Kind] at hK
    simp [getFieldByPropType, hK]

theorem getFieldByProp_some (prop : GoString) (s : Option RType) (T : RType) :
    getFieldByProp prop s (some T) = getFieldByPropType prop T := by
  simp [getFieldByProp]

theorem getFieldByProp_nil_rt (prop : GoString) (T : RType) :
    getFieldByProp prop (some T) none = getFieldByPropType prop T := by
  simp [getFieldByProp]

/-- The loop of a struct type up to the first field whose alias is the first segment. -/
theorem getFieldByPropType_first (prop p0 : GoString) (ps : List GoString) (T : RType)
    (i : Nat) (d : FieldDecl) (hK : T.Kind = Kind.Struct) (hs : Split prop '.' = p0 :: ps)
    (hd : T.fields.get? i = some d)
    (hfirst : ∀ j, j < i → ∀ g, T.Field j = some g → getPropValue g ≠ p0) :
    getFieldByPropType prop T
      = getFieldByPropLoop prop (p0 :: ps) i (d :: T.fields.drop (i + 1)) := by
  rw [getFieldByPropType_struct prop T hK, hs]
  have hskip := loop_skip prop p0 ps i T.fields 0 (by
    intro j hj e he
    have := hfirst j hj (e.toField j) (Field_of_get T j e he)
    simpa using this)
  rw [hskip]
  have hlt : i < T.fields.length := by
    rcases Nat.lt_or_ge i T.fields.length with h | h
    · exact h
    · have : T.fields.get? i = none := by simp [h]
      rw [this] at hd; simp at hd
  have hdrop : T.fields.drop i = d :: T.fields.drop (i + 1) := by
    rw [List.drop_eq_getElem_cons hlt]
    have : T.fields[i] = d := by
      have h2 : T.fields.get? i = some T.fields[i] := by simp [hlt]
      rw [h2] at hd
      exact Option.some.inj hd
    rw [this]
  rw [hdrop]
  simp

theorem getFieldByProp_first_single (n : GoString) (T : RType) (i : Nat) (f : StructField)
    (hK : T.Kind = Kind.Struct) (hseg : '.' ∉ n) (hf : T.Field i = some f)
    (ha : getPropValue f = n)
    (hfirst : ∀ j, j < i → ∀ g, T.Field j = some g → getPropValue g ≠ n) :
    getFieldByPropType n T = some (f, none) := by
  obtain ⟨d, hd, rfl⟩ := Field_eq_some T i f hf
  rw [getFieldByPropType_first n n [] T i d hK (Split_of_not_mem n '.' hseg) hd hfirst]
  exact loop_hit_single n n i d _ ha

theorem getFieldByProp_first_leaf (prop : GoString) (T : RType) (i : Nat) (f : StructField)
    (hK : T.Kind = Kind.Struct) (hdot : '.' ∈ prop) (hf : T.Field i = some f)
    (ha : getPropValue f = prop.takeWhile (fun c => decide (c ≠ '.')))
    (hfirst : ∀ j, j < i → ∀ g, T.Field j = some g →
      getPropValue g ≠ prop.takeWhile (fun c => decide (c ≠ '.')))
    (hk : ∀ t, f.Typ = some t → t.Kind ≠ Kind.Struct ∧ t.Kind ≠ Kind.Interface) :
    getFieldByPropType prop T
      = some (f, some (errorsNew ("invalid prop query: ".toList ++ prop))) := by
  obtain ⟨d, hd, rfl⟩ := Field_eq_some T i f hf
  have hlen := Split_length_two_le prop '.' hdot
  have hhead := Split_head prop '.'
  cases hs : Split prop '.' with
  | nil => rw [hs] at hlen; simp at hlen
  | cons p0 ps =>
    cases ps with
    | nil => rw [hs] at hlen; simp at hlen
    | cons q qs =>
      rw [hs] at hhead
      simp only [List.headD_cons] at hhead
      rw [← hhead] at ha hfirst
      rw [getFieldByPropType_first prop p0 (q :: qs) T i d hK hs hd hfirst]
      exact loop_hit_leaf prop p0 q qs i d _ ha hk

theorem getFieldByProp_first_nested (a rest : GoString) (T U : RType) (i : Nat)
    (f : StructField) (hK : T.Kind = Kind.Struct) (ha : '.' ∉ a) (hf : T.Field i = some f)
    (hm : getPropValue f = a)
    (hfirst : ∀ j, j < i → ∀ g, T.Field j = some g → getPropValue g ≠ a)
    (hU : f.Typ = some U) (hUK : U.Kind = Kind.Struct ∨ U.Kind = Kind.Interface) :
    getFieldByPropType (a ++ ['.'] ++ rest) T = getFieldByPropType rest U := by
  obtain ⟨d, hd, rfl⟩ := Field_eq_some T i f hf
  have hs : Split (a ++ ['.'] ++ rest) '.' = a :: Split rest '.' := by
    have := Split_append_sep a rest '.' ha
    simpa using this
  have hne := Split_ne_nil rest '.'
  cases hr : Split rest '.' with
  | nil => exact absurd hr hne
  | cons q qs =>
    rw [hr] at hs
    rw [getFieldByPropType_first _ a (q :: qs) T i d hK hs hd hfirst]
    rw [loop_hit_nested _ a q qs i d _ U hm hU hUK, ← hr, Join_Split]

theorem getFieldByProp_no_match (prop : GoString) (T : RType) (hK : T.Kind = Kind.Struct)
    (h : ∀ i f, T.Field i = some f →
      getPropValue f ≠ prop.takeWhile (fun c => decide (c ≠ '.'))) :
    getFieldByPropType prop T = some (StructField.zero, none) := by
  rw [getFieldByPropType_struct prop T hK]
  have hne := Split_ne_nil prop '.'
  have hhead := Split_head prop '.'
  cases hs : Split prop '.' with
  | nil => exact absurd hs hne
  | cons p0 ps =>
    rw [hs] at hhead
    simp only [List.headD_cons] at hhead
    rw [← hhead] at h
    have hskip := loop_skip prop p0 ps T.fields.length T.fields 0 (by
      intro j _ e he
      have := h j (e.toField j) (Field_of_get T j e he)
      simpa using this)
    rw [hskip]
    simp [loop_nil]

theorem exists_first_alias (T : RType) (n : GoString)
    (h : ∃ i f, T.Field i = some f ∧ getPropValue f = n) :
    ∃ i f, T.Field i = some f ∧ getPropValue f = n ∧
      ∀ j g, T.Field j = some g → getPropValue g = n → i ≤ j := by
  classical
  have hex : ∃ i, ∃ f, T.Field i = some f ∧ getPropValue f = n := h
  obtain ⟨f, hf, ha⟩ := Nat.find_spec hex
  refine ⟨Nat.find hex, f, hf, ha, ?_⟩
  intro j g hg hga
  exact Nat.find_min' hex ⟨g, hg, hga⟩

/-- Every declaration of a list avoids an alias, stated on the declarations. -/
theorem no_alias_of_forall_mem (T : RType) (seg : GoString)
    (h : ∀ d ∈ T.fields, getPropValue (d.toField 0) ≠ seg) :
    ∀ i f, T.Field i = some f → getPropValue f ≠ seg := by
  intro i f hf
  obtain ⟨d, hd, rfl⟩ := Field_eq_some T i f hf
  rw [getPropValue_toField d i 0]
  exact h d (List.get?_mem hd)

/-! ## Alias resolution and path location: the claims -/

/-- C7: `getPropValue` is the first comma-separated token (the text before the first
comma) of the gongo tag when that token is non-empty, else that of the bson tag when
non-empty, else that of the json tag; it is empty exactly when the three first tokens
are empty, which is the case when the three tags are absent. -/
theorem getPropValue_priority (field : StructField) :
    getPropValue field =
        (if (field.Tag.Get gongoTag).takeWhile (fun c => decide (c ≠ ',')) ≠ [] then
          (field.Tag.Get gongoTag).takeWhile (fun c => decide (c ≠ ','))
        else if (field.Tag.Get bsonTag).takeWhile (fun c => decide (c ≠ ',')) ≠ [] then
          (field.Tag.Get bsonTag).takeWhile (fun c => decide (c ≠ ','))
        else (field.Tag.Get jsonTag).takeWhile (fun c => decide (c ≠ ',')))
      ∧ (getPropValue field = [] ↔
          (field.Tag.Get gongoTag).takeWhile (fun c => decide (c ≠ ',')) = []
          ∧ (field.Tag.Get bsonTag).takeWhile (fun c => decide (c ≠ ',')) = []
          ∧ (field.Tag.Get jsonTag).takeWhile (fun c => decide (c ≠ ',')) = [])
      ∧ ((∀ kv ∈ field.Tag, kv.1 ≠ gongoTag ∧ kv.1 ≠ bsonTag ∧ kv.1 ≠ jsonTag) →
          getPropValue field = []) := by
  have hdef : getPropValue field =
        (if (field.Tag.Get gongoTag).takeWhile (fun c => decide (c ≠ ',')) ≠ [] then
          (field.Tag.Get gongoTag).takeWhile (fun c => decide (c ≠ ','))
        else if (field.Tag.Get bsonTag).takeWhile (fun c => decide (c ≠ ',')) ≠ [] then
          (field.Tag.Get bsonTag).takeWhile (fun c => decide (c ≠ ','))
        else (field.Tag.Get jsonTag).takeWhile (fun c => decide (c ≠ ','))) := by
    simp only [getPropValue, firstToken, Split_head]
  have habs : ∀ key : GoString, (∀ kv ∈ field.Tag, kv.1 ≠ key) → field.Tag.Get key = [] := by
    intro key hk
    have hnone : List.find? (fun kv => decide (kv.1 = key)) field.Tag = none := by
      rw [List.find?_eq_none]
      intro kv hkv
      simpa using hk kv hkv
    simp [StructTag.Get, hnone]
  refine ⟨hdef, ?_, ?_⟩
  · rw [hdef]
    generalize (field.Tag.Get gongoTag).takeWhile (fun c => decide (c ≠ ',')) = g
    generalize (field.Tag.Get bsonTag).takeWhile (fun c => decide (c ≠ ',')) = b
    generalize (field.Tag.Get jsonTag).takeWhile (fun c => decide (c ≠ ',')) = j
    by_cases hg : g = [] <;> by_cases hb : b = [] <;> simp [hg, hb]
  · intro h
    rw [hdef, habs gongoTag (fun kv hkv => (h kv hkv).1),
      habs bsonTag (fun kv hkv => (h kv hkv).2.1), habs jsonTag (fun kv hkv => (h kv hkv).2.2)]
    simp

/-- C5: for a type whose kind is not struct, `getFieldByProp` returns the zero-value
descriptor with the error "bad type", whatever the path (and whether the type comes
through `rt` or through the instance `s`). -/
theorem getFieldByProp_bad_type (prop : GoString) (s : Option RType) (T : RType)
    (hK : T.Kind ≠ Kind.Struct) :
    getFieldByProp prop s (some T)
        = some (StructField.zero, some (errorsNew "bad type".toList))
      ∧ getFieldByProp prop (some T) none
        = some (StructField.zero, some (errorsNew "bad type".toList)) := by
  rw [getFieldByProp_some, getFieldByProp_nil_rt]
  exact ⟨getFieldByPropType_not_struct prop T hK, getFieldByPropType_not_struct prop T hK⟩

/-- Witness of C5 on the type `string` and the path `a.b`. -/
theorem getFieldByProp_bad_type_witness :
    exString.Kind ≠ Kind.Struct
      ∧ getFieldByProp "a.b".toList none (some exString)
        = some (StructField.zero, some (errorsNew "bad type".toList))
      ∧ getFieldByProp "a.b".toList (some exString) none
        = some (StructField.zero, some (errorsNew "bad type".toList)) :=
  ⟨by decide, getFieldByProp_bad_type "a.b".toList none exString (by decide)⟩

/-- C3: on a struct type, a path whose first dot-separated segment is the alias of no
field yields the zero-value descriptor and a nil error. -/
theorem getFieldByProp_not_found (prop : GoString) (s : Option RType) (T : RType)
    (hK : T.Kind = Kind.Struct)
    (h : ∀ i f, T.Field i = some f →
      getPropValue f ≠ prop.takeWhile (fun c => decide (c ≠ '.'))) :
    getFieldByProp prop s (some T) = some (StructField.zero, none)
      ∧ getFieldByProp prop (some T) none = some (StructField.zero, none) := by
  rw [getFieldByProp_some, getFieldByProp_nil_rt]
  exact ⟨getFieldByProp_no_match prop T hK h, getFieldByProp_no_match prop T hK h⟩

/-- Witness of C3: `phone.area` on the example struct, which has no alias `phone`. -/
theorem getFieldByProp_not_found_witness :
    getFieldByProp "phone.area".toList none (some exUser) = some (StructField.zero, none)
      ∧ getFieldByProp "phone.area".toList (some exUser) none
        = some (StructField.zero, none) :=
  getFieldByProp_not_found "phone.area".toList none exUser rfl
    (no_alias_of_forall_mem exUser _ (by
      intro d hd
      simp only [exUser, RType.fields, List.mem_cons, List.mem_singleton,
        List.not_mem_nil, or_false] at hd
      rcases hd with h | h | h | h | h <;> subst h <;> decide))

/-- Witness of C7: the field `Zip` tagged `json:"zip,omitempty"` has alias `zip`. -/
theorem getPropValue_priority_witness :
    getPropValue (FieldDecl.toField 1
      (FieldDecl.mk "Zip".toList exString [(jsonTag, "zip,omitempty".toList)])) = "zip".toList :=
  (getPropValue_priority (FieldDecl.toField 1
    (FieldDecl.mk "Zip".toList exString [(jsonTag, "zip,omitempty".toList)]))).1.trans
    (by decide)

/-- C1 as stated fails: the example struct declares `Nick` (index 2) with alias `name`,
yet the path `name` yields `Name` (index 0); and it declares `Dotted` (index 4) with
alias `a.b`, yet the path `a.b` yields the zero-value descriptor. -/
theorem getFieldByProp_alias_counterexample :
    (∃ f, exUser.Field 2 = some f ∧ getPropValue f = "name".toList
        ∧ getFieldByProp (getPropValue f) none (some exUser) ≠ some (f, none))
      ∧ (∃ f, exUser.Field 4 = some f ∧ getPropValue f = "a.b".toList
        ∧ getFieldByProp (getPropValue f) none (some exUser) = some (StructField.zero, none)
        ∧ getFieldByProp (getPropValue f) none (some exUser) ≠ some (f, none)) := by
  refine ⟨⟨_, rfl, by decide, ?_⟩, ⟨_, rfl, by decide, rfl, ?_⟩⟩
  · intro h
    have h2 := congrArg (fun r => r.map (fun x => x.1.Index)) h
    revert h2
    decide
  · intro h
    have h2 := congrArg (fun r => r.map (fun x => x.1.Index)) h
    revert h2
    decide

/-- C1 (amended): on a struct type, for a declared field `f` whose alias contains no dot
and which is the first field (in declaration order) with that alias, `getFieldByProp`
on the alias returns `f` with a nil error. -/
theorem getFieldByProp_alias (T : RType) (i : Nat) (f : StructField) (s : Option RType)
    (hK : T.Kind = Kind.Struct) (hf : T.Field i = some f) (hdot : '.' ∉ getPropValue f)
    (hfirst : ∀ j, j < i → ∀ g, T.Field j = some g → getPropValue g ≠ getPropValue f) :
    getFieldByProp (getPropValue f) s (some T) = some (f, none)
      ∧ getFieldByProp (getPropValue f) (some T) none = some (f, none) := by
  rw [getFieldByProp_some, getFieldByProp_nil_rt]
  exact ⟨getFieldByProp_first_single _ T i f hK hdot hf rfl hfirst,
    getFieldByProp_first_single _ T i f hK hdot hf rfl hfirst⟩

/-- Witness of C1 (amended): the field `Addr` (index 1, alias `addr`) of the example
struct. -/
theorem getFieldByProp_alias_witness :
    getFieldByProp "addr".toList none (some exUser)
        = some (⟨"Addr".toList, some exAddress, [(bsonTag, "addr".toList)], [1]⟩, none)
      ∧ getFieldByProp "addr".toList (some exUser) none
        = some (⟨"Addr".toList, some exAddress, [(bsonTag, "addr".toList)], [1]⟩, none) :=
  getFieldByProp_alias exUser 1
    ⟨"Addr".toList, some exAddress, [(bsonTag, "addr".toList)], [1]⟩ none rfl rfl (by decide)
    (by
      intro j hj g hg
      have hj0 : j = 0 := by omega
      subst hj0
      have hg2 : g = ⟨"Name".toList, some exString, [(jsonTag, "name".toList)], [0]⟩ :=
        (Option.some.inj hg).symm
      subst hg2
      decide)

/-- C2: on a struct type `T`, when the first field whose alias is the segment `a` has
kind struct and declared type `U`, the path `a.rest` resolves on `T` to exactly the
result (field and error) of `rest` on `U`. -/
theorem getFieldByProp_nested (T U : RType) (a rest : GoString) (s : Option RType)
    (i : Nat) (f : StructField) (hK : T.Kind = Kind.Struct) (ha : '.' ∉ a)
    (_hrest : rest ≠ []) (hf : T.Field i = some f) (hm : getPropValue f = a)
    (hfirst : ∀ j, j < i → ∀ g, T.Field j = some g → getPropValue g ≠ a)
    (hU : f.Typ = some U) (hUK : U.Kind = Kind.Struct) :
    getFieldByProp (a ++ ".".toList ++ rest) s (some T) = getFieldByProp rest none (some U)
      ∧ getFieldByProp (a ++ ".".toList ++ rest) (some T) none
        = getFieldByProp rest none (some U) := by
  rw [getFieldByProp_some, getFieldByProp_nil_rt, getFieldByProp_some]
  exact ⟨getFieldByProp_first_nested a rest T U i f hK ha hf hm hfirst hU (Or.inl hUK),
    getFieldByProp_first_nested a rest T U i f hK ha hf hm hfirst hU (Or.inl hUK)⟩

/-- Witness of C2: `addr.zip` on the example struct is `zip` on the address struct. -/
theorem getFieldByProp_nested_witness :
    getFieldByProp ("addr".toList ++ ".".toList ++ "zip".toList) none (some exUser)
        = getFieldByProp "zip".toList none (some exAddress)
      ∧ getFieldByProp ("addr".toList ++ ".".toList ++ "zip".toList) (some exUser) none
        = getFieldByProp "zip".toList none (some exAddress) :=
  getFieldByProp_nested exUser exAddress "addr".toList "zip".toList none 1
    ⟨"Addr".toList, some exAddress, [(bsonTag, "addr".toList)], [1]⟩ rfl (by decide)
    (by decide) rfl (by decide)
    (by
      intro j hj g hg
      have hj0 : j = 0 := by omega
      subst hj0
      have hg2 : g = ⟨"Name".toList, some exString, [(jsonTag, "name".toList)], [0]⟩ :=
        (Option.some.inj hg).symm
      subst hg2
      decide)
    rfl rfl

/-- C4: on a struct type, for a path with at least two segments (it contains a dot)
whose first segment is matched first by a field of a kind other than struct and
interface, `getFieldByProp` returns the error `invalid prop query: ` followed by the
path (together with the matched field), and the result is the same whatever fields
are declared after the matched one. -/
theorem getFieldByProp_invalid_path (prop : GoString) (s : Option RType) (T : RType)
    (i : Nat) (f : StructField) (hK : T.Kind = Kind.Struct) (hdot : '.' ∈ prop)
    (hf : T.Field i = some f)
    (hm : getPropValue f = prop.takeWhile (fun c => decide (c ≠ '.')))
    (hfirst : ∀ j, j < i → ∀ g, T.Field j = some g →
      getPropValue g ≠ prop.takeWhile (fun c => decide (c ≠ '.')))
    (hkind : ∃ t, f.Typ = some t ∧ t.Kind ≠ Kind.Struct ∧ t.Kind ≠ Kind.Interface) :
    getFieldByProp prop s (some T)
        = some (f, some (errorsNew ("invalid prop query: ".toList ++ prop)))
      ∧ getFieldByProp prop (some T) none
        = some (f, some (errorsNew ("invalid prop query: ".toList ++ prop)))
      ∧ ∀ later : List FieldDecl,
          getFieldByProp prop s (some (RType.mk Kind.Struct (T.fields.take (i + 1) ++ later)))
            = some (f, some (errorsNew ("invalid prop query: ".toList ++ prop))) := by
  obtain ⟨t, ht, hk1, hk2⟩ := hkind
  have hk : ∀ u, f.Typ = some u → u.Kind ≠ Kind.Struct ∧ u.Kind ≠ Kind.Interface := by
    intro u hu
    rw [ht] at hu
    cases Option.some.inj hu
    exact ⟨hk1, hk2⟩
  refine ⟨?_, ?_, ?_⟩
  · rw [getFieldByProp_some]
    exact getFieldByProp_first_leaf prop T i f hK hdot hf hm hfirst hk
  · rw [getFieldByProp_nil_rt]
    exact getFieldByProp_first_leaf prop T i f hK hdot hf hm hfirst hk
  · intro later
    rw [getFieldByProp_some]
    obtain ⟨d, hd, hfd⟩ := Field_eq_some T i f hf
    have hlt : i < T.fields.length := by
      rcases Nat.lt_or_ge i T.fields.length with h | h
      · exact h
      · have : T.fields.get? i = none := by simp [h]
        rw [this] at hd; simp at hd
    have hpre : ∀ j, j ≤ i →
        (T.fields.take (i + 1) ++ later).get? j = T.fields.get? j := by
      intro j hj
      have h1 : j < (T.fields.take (i + 1)).length := by
        rw [List.length_take]; omega
      simp only [List.get?_eq_getElem?]
      rw [List.getElem?_append_left h1, List.getElem?_take_of_lt (by omega)]
    have hF : ∀ j, j ≤ i →
        (RType.mk Kind.Struct (T.fields.take (i + 1) ++ later)).Field j = T.Field j := by
      intro j hj
      show Option.map _ ((T.fields.take (i + 1) ++ later).get? j)
        = Option.map _ (T.fields.get? j)
      rw [hpre j hj]
    apply getFieldByProp_first_leaf prop
      (RType.mk Kind.Struct (T.fields.take (i + 1) ++ later)) i f rfl hdot _ hm _ hk
    · rw [hF i (Nat.le_refl i)]
      exact hf
    · intro j hj g hg
      rw [hF j (Nat.le_of_lt hj)] at hg
      exact hfirst j hj g hg

/-- Witness of C4: `name.first` on the example struct, whose field `name` is a string. -/
theorem getFieldByProp_invalid_path_witness :
    getFieldByProp "name.first".toList none (some exUser)
        = some (⟨"Name".toList, some exString, [(jsonTag, "name".toList)], [0]⟩,
            some (errorsNew "invalid prop query: name.first".toList))
      ∧ getFieldByProp "name.first".toList (some exUser) none
        = some (⟨"Name".toList, some exString, [(jsonTag, "name".toList)], [0]⟩,
            some (errorsNew "invalid prop query: name.first".toList))
      ∧ ∀ later : List FieldDecl,
          getFieldByProp "name.first".toList none
              (some (RType.mk Kind.Struct (exUser.fields.take (0 + 1) ++ later)))
            = some (⟨"Name".toList, some exString, [(jsonTag, "name".toList)], [0]⟩,
                some (errorsNew "invalid prop query: name.first".toList)) :=
  getFieldByProp_invalid_path "name.first".toList none exUser 0
    ⟨"Name".toList, some exString, [(jsonTag, "name".toList)], [0]⟩ rfl (by decide) rfl
    (by decide) (by intro j hj; omega) ⟨exString, rfl, by decide, by decide⟩

/-- C6: on a struct type in which several fields have the alias `n`, the single-segment
path `n` (no dot) yields, with a nil error, the field of smallest declaration index
among those whose alias is `n`. -/
theorem getFieldByProp_tie_break (T : RType) (n : GoString) (s : Option RType)
    (i1 i2 : Nat) (f1 f2 : StructField) (hK : T.Kind = Kind.Struct) (hseg : '.' ∉ n)
    (_hne : i1 ≠ i2) (h1 : T.Field i1 = some f1) (_h2 : T.Field i2 = some f2)
    (ha1 : getPropValue f1 = n) (_ha2 : getPropValue f2 = n) :
    ∃ i f, T.Field i = some f ∧ getPropValue f = n
      ∧ (∀ j g, T.Field j = some g → getPropValue g = n → i ≤ j)
      ∧ getFieldByProp n s (some T) = some (f, none)
      ∧ getFieldByProp n (some T) none = some (f, none) := by
  obtain ⟨i, f, hf, ha, hmin⟩ := exists_first_alias T n ⟨i1, f1, h1, ha1⟩
  have hfirst : ∀ j, j < i → ∀ g, T.Field j = some g → getPropValue g ≠ n := by
    intro j hj g hg hga
    have := hmin j g hg hga
    omega
  refine ⟨i, f, hf, ha, hmin, ?_, ?_⟩
  · rw [getFieldByProp_some]
    exact getFieldByProp_first_single n T i f hK hseg hf ha hfirst
  · rw [getFieldByProp_nil_rt]
    exact getFieldByProp_first_single n T i f hK hseg hf ha hfirst

/-- Witness of C6: the example struct aliases both `Name` (index 0) and `Nick`
(index 2) to `name`. -/
theorem getFieldByProp_tie_break_witness :
    ∃ i f, exUser.Field i = some f ∧ getPropValue f = "name".toList
      ∧ (∀ j g, exUser.Field j = some g → getPropValue g = "name".toList → i ≤ j)
      ∧ getFieldByProp "name".toList none (some exUser) = some (f, none)
      ∧ getFieldByProp "name".toList (some exUser) none = some (f, none) :=
  getFieldByProp_tie_break exUser "name".toList none 0 2
    ⟨"Name".toList, some exString, [(jsonTag, "name".toList)], [0]⟩
    ⟨"Nick".toList, some exString, [(jsonTag, "name".toList)], [2]⟩
    rfl (by decide) (by decide) rfl rfl (by decide) (by decide)

/-! ## Lemmas on `strconv.ParseUint` and `strconv.ParseInt` -/

theorem foldl_digit_ge (ds : List Char) (n : Nat) :
    n ≤ ds.foldl (fun m c => 10 * m + (c.toNat - 48)) n := by
  induction ds generalizing n with
  | nil => simp
  | cons c cs ih =>
    simp only [List.foldl_cons]
    have := ih (10 * n + (c.toNat - 48))
    omega

/-- On a string of decimal digits the loop of `ParseUint` computes the number the
digits denote, or fails with a range error once it exceeds `maxVal`. -/
theorem ParseUintLoop_digits (s0 : GoString) (maxVal : Nat) (hmax : maxVal < 2 ^ 64) :
    ∀ (ds : List Char) (n : Nat), (∀ c ∈ ds, 48 ≤ c.toNat ∧ c.toNat ≤ 57) → n ≤ maxVal →
      ParseUintLoop s0 (maxUint64 / 10 + 1) maxVal ds n =
        if ds.foldl (fun m c => 10 * m + (c.toNat - 48)) n ≤ maxVal then
          (ds.foldl (fun m c => 10 * m + (c.toNat - 48)) n, none)
        else (maxVal, some (rangeError "ParseUint".toList s0)) := by
  intro ds
  induction ds with
  | nil => intro n _ hn; simp [ParseUintLoop, hn]
  | cons c cs ih =>
    intro n hds hn
    have hc := hds c (by simp)
    have hcs : ∀ x ∈ cs, 48 ≤ x.toNat ∧ x.toNat ≤ 57 := fun x hx => hds x (by simp [hx])
    have hge := foldl_digit_ge cs (10 * n + (c.toNat - 48))
    have h0 : ('0' : Char).toNat = 48 := by decide
    have h9 : ('9' : Char).toNat = 57 := by decide
    have hcut : maxUint64 / 10 + 1 = 1844674407370955162 := by decide
    have hpow : (2 : Nat) ^ 64 = 18446744073709551616 := by norm_num
    simp only [ParseUintLoop, h0, h9, hc.1, hc.2, and_self, if_true, hcut, List.foldl_cons]
    have hd : ¬ (c.toNat - 48 ≥ 10) := by omega
    simp only [hd, if_false]
    by_cases hn2 : n ≥ 1844674407370955162
    · simp only [hn2, if_true]
      have : ¬ (cs.foldl (fun m c => 10 * m + (c.toNat - 48)) (10 * n + (c.toNat - 48))
          ≤ maxVal) := by omega
      simp only [this, if_false]
    · simp only [hn2, if_false]
      have hmul : n * 10 % 2 ^ 64 = n * 10 := Nat.mod_eq_of_lt (by omega)
      rw [hmul]
      by_cases hov : n * 10 + (c.toNat - 48) ≥ 2 ^ 64
      · have hn1 : (n * 10 + (c.toNat - 48)) % 2 ^ 64 = n * 10 + (c.toNat - 48) - 2 ^ 64 := by
          rw [Nat.mod_eq_sub_mod hov]
          exact Nat.mod_eq_of_lt (by omega)
        rw [hn1]
        have hlt : n * 10 + (c.toNat - 48) - 2 ^ 64 < n * 10 := by omega
        simp only [hlt, true_or, if_true]
        have : ¬ (cs.foldl (fun m c => 10 * m + (c.toNat - 48)) (10 * n + (c.toNat - 48))
            ≤ maxVal) := by omega
        simp only [this, if_false]
      · have hn1 : (n * 10 + (c.toNat - 48)) % 2 ^ 64 = n * 10 + (c.toNat - 48) :=
          Nat.mod_eq_of_lt (by omega)
        rw [hn1]
        have hnlt : ¬ (n * 10 + (c.toNat - 48) < n * 10) := by omega
        by_cases hgt : n * 10 + (c.toNat - 48) > maxVal
        · simp only [hgt, or_true, if_true]
          have : ¬ (cs.foldl (fun m c => 10 * m + (c.toNat - 48)) (10 * n + (c.toNat - 48))
              ≤ maxVal) := by omega
          simp only [this, if_false]
        · simp only [hnlt, hgt, or_self, if_false]
          have e : n * 10 + (c.toNat - 48) = 10 * n + (c.toNat - 48) := by omega
          rw [e]
          exact ih (10 * n + (c.toNat - 48)) hcs (by omega)

/-- Whatever the string, the loop of `ParseUint` ends without error, or with a syntax
error and the value 0, or with a range error and the value `maxVal`. -/
theorem ParseUintLoop_cases (s0 : GoString) (cutoff maxVal : Nat) :
    ∀ (s : GoString) (n : Nat),
      (ParseUintLoop s0 cutoff maxVal s n).2 = none
      ∨ ParseUintLoop s0 cutoff maxVal s n = (0, some (syntaxError "ParseUint".toList s0))
      ∨ ParseUintLoop s0 cutoff maxVal s n
          = (maxVal, some (rangeError "ParseUint".toList s0)) := by
  intro s
  induction s with
  | nil => intro n; simp [ParseUintLoop]
  | cons c cs ih =>
    intro n
    simp only [ParseUintLoop]
    split
    · simp
    · split
      · simp
      · split
        · simp
        · split
          · simp
          · exact ih _

theorem maxVal_eq (w : Nat) (hw : w = 8 ∨ w = 16 ∨ w = 32 ∨ w = 64) :
    ((1 <<< w) % 2 ^ 64 + 2 ^ 64 - 1) % 2 ^ 64 = 2 ^ w - 1 := by
  rcases hw with rfl | rfl | rfl | rfl <;> decide

/-- `ParseUint` on a non-empty string of decimal digits. -/
theorem ParseUint_digits (ds : List Char) (w : Nat) (hw : w = 8 ∨ w = 16 ∨ w = 32 ∨ w = 64)
    (hne : ds ≠ []) (hd : ∀ c ∈ ds, 48 ≤ c.toNat ∧ c.toNat ≤ 57) :
    ParseUint ds w =
      if decValue ds ≤ 2 ^ w - 1 then (decValue ds, none)
      else (2 ^ w - 1, some (rangeError "ParseUint".toList ds)) := by
  have hw0 : w ≠ 0 := by rcases hw with rfl | rfl | rfl | rfl <;> decide
  have hw64 : ¬ (w > 64) := by rcases hw with rfl | rfl | rfl | rfl <;> decide
  have hlt : 2 ^ w - 1 < 2 ^ 64 := by rcases hw with rfl | rfl | rfl | rfl <;> decide
  simp only [ParseUint, hne, if_false, hw0, hw64, maxVal_eq w hw]
  rw [ParseUintLoop_digits ds (2 ^ w - 1) hlt ds 0 hd (Nat.zero_le _)]
  rfl

/-- `ParseUint` on any string, for the widths the program uses: no error, or a syntax
error with the value 0, or a range error with the value `2^w - 1`. -/
theorem ParseUint_cases (s : GoString) (w : Nat) (hw : w = 8 ∨ w = 16 ∨ w = 32 ∨ w = 64) :
    (ParseUint s w).2 = none
      ∨ ParseUint s w = (0, some (syntaxError "ParseUint".toList s))
      ∨ ParseUint s w = (2 ^ w - 1, some (rangeError "ParseUint".toList s)) := by
  have hw0 : w ≠ 0 := by rcases hw with rfl | rfl | rfl | rfl <;> decide
  have hw64 : ¬ (w > 64) := by rcases hw with rfl | rfl | rfl | rfl <;> decide
  by_cases hs : s = []
  · simp [ParseUint, hs]
  · simp only [ParseUint, hs, if_false, hw0, hw64, maxVal_eq w hw]
    exact ParseUintLoop_cases s _ _ s 0

theorem toInt64_of_lt (u : Nat) (h : u < 2 ^ 63) : toInt64 u = (u : Int) := by
  have h1 : u % 2 ^ 64 = u := Nat.mod_eq_of_lt (by omega)
  unfold toInt64
  rw [h1, if_pos h]

theorem negInt64_toInt64 (u : Nat) (h : u ≤ 2 ^ 63) : negInt64 (toInt64 u) = -(u : Int) := by
  have h1 : u % 2 ^ 64 = u := Nat.mod_eq_of_lt (by omega)
  unfold negInt64 toInt64
  rw [h1]
  split <;> omega

theorem cutoff_eq (w : Nat) (hw : w = 8 ∨ w = 16 ∨ w = 32 ∨ w = 64) :
    (1 <<< ((if w = 0 then 64 else w) - 1)) % 2 ^ 64 = 2 ^ (w - 1) := by
  rcases hw with rfl | rfl | rfl | rfl <;> decide

theorem cutoff_pred_eq (w : Nat) (hw : w = 8 ∨ w = 16 ∨ w = 32 ∨ w = 64) :
    toInt64 ((2 ^ (w - 1) + 2 ^ 64 - 1) % 2 ^ 64) = (2 : Int) ^ (w - 1) - 1 := by
  rcases hw with rfl | rfl | rfl | rfl <;> decide

theorem cutoff_le (w : Nat) (hw : w = 8 ∨ w = 16 ∨ w = 32 ∨ w = 64) :
    2 ^ (w - 1) ≤ 2 ^ 63 := by
  rcases hw with rfl | rfl | rfl | rfl <;> decide

/-- The range check of `ParseInt` in terms of integers. -/
theorem ParseIntRange_eq (s0 : GoString) (neg : Bool) (un w : Nat)
    (hw : w = 8 ∨ w = 16 ∨ w = 32 ∨ w = 64) :
    ParseIntRange s0 neg un w =
      if neg = false ∧ un ≥ 2 ^ (w - 1) then
        ((2 : Int) ^ (w - 1) - 1, some (rangeError "ParseInt".toList s0))
      else if neg = true ∧ un > 2 ^ (w - 1) then
        (-(2 : Int) ^ (w - 1), some (rangeError "ParseInt".toList s0))
      else (if neg = true then -(un : Int) else (un : Int), none) := by
  have hle := cutoff_le w hw
  simp only [ParseIntRange, cutoff_eq w hw, cutoff_pred_eq w hw]
  rw [negInt64_toInt64 (2 ^ (w - 1)) hle]
  by_cases h1 : neg = false ∧ un ≥ 2 ^ (w - 1)
  · simp only [h1, and_self, if_true]
  · simp only [h1, if_false]
    by_cases h2 : neg = true ∧ un > 2 ^ (w - 1)
    · simp only [h2, and_self, if_true]
      push_cast
      rfl
    · simp only [h2, if_false]
      cases neg with
      | false =>
        have : un < 2 ^ 63 := by
          have : ¬ (un ≥ 2 ^ (w - 1)) := fun h => h1 ⟨rfl, h⟩
          omega
        simp [toInt64_of_lt un this]
      | true =>
        have : un ≤ 2 ^ 63 := by
          have : ¬ (un > 2 ^ (w - 1)) := fun h => h2 ⟨rfl, h⟩
          omega
        simp [negInt64_toInt64 un this]

theorem cutoff_lt_maxVal (w : Nat) (hw : w = 8 ∨ w = 16 ∨ w = 32 ∨ w = 64) :
    2 ^ (w - 1) < 2 ^ w - 1 := by
  rcases hw with rfl | rfl | rfl | rfl <;> decide

theorem ErrSyntax_ne_ErrRange : ErrSyntax ≠ ErrRange := by decide

/-- `ParseInt` once the sign is picked off and the rest is a string of digits. -/
theorem ParseInt_digits_tail (c : Char) (cs ds : List Char) (neg : Bool) (w : Nat)
    (hw : w = 8 ∨ w = 16 ∨ w = 32 ∨ w = 64)
    (hs1 : (if c = '+' then cs else if c = '-' then cs else c :: cs) = ds)
    (hneg : (if c = '+' then false else if c = '-' then true else false) = neg)
    (hne : ds ≠ []) (hd : ∀ x ∈ ds, 48 ≤ x.toNat ∧ x.toNat ≤ 57) :
    ParseInt (c :: cs) w =
      if neg = false ∧ decValue ds ≥ 2 ^ (w - 1) then
        ((2 : Int) ^ (w - 1) - 1, some (rangeError "ParseInt".toList (c :: cs)))
      else if neg = true ∧ decValue ds > 2 ^ (w - 1) then
        (-(2 : Int) ^ (w - 1), some (rangeError "ParseInt".toList (c :: cs)))
      else (if neg = true then -((decValue ds : Nat) : Int) else ((decValue ds : Nat) : Int),
        none) := by
  have hlt := cutoff_lt_maxVal w hw
  simp only [ParseInt, hs1, hneg]
  rw [ParseUint_digits ds w hw hne hd]
  by_cases hV : decValue ds ≤ 2 ^ w - 1
  · simp only [hV, if_true]
    exact ParseIntRange_eq _ neg _ w hw
  · simp only [hV, if_false, rangeError, ne_eq, not_true_eq_false]
    rw [ParseIntRange_eq _ neg _ w hw]
    cases neg with
    | false =>
      have h1 : 2 ^ w - 1 ≥ 2 ^ (w - 1) := by omega
      have h2 : decValue ds ≥ 2 ^ (w - 1) := by omega
      simp [h1, h2, rangeError]
    | true =>
      have h1 : 2 ^ w - 1 > 2 ^ (w - 1) := by omega
      have h2 : decValue ds > 2 ^ (w - 1) := by omega
      simp [h1, h2, rangeError]

/-- `ParseInt` on a well-formed decimal literal: the integer it denotes when that lies
in the range of the width, else a range error with the bound on the side of the sign. -/
theorem ParseInt_literal (sign ds : List Char) (w : Nat)
    (hw : w = 8 ∨ w = 16 ∨ w = 32 ∨ w = 64)
    (hsign : sign = [] ∨ sign = ['+'] ∨ sign = ['-'])
    (hne : ds ≠ []) (hd : ∀ x ∈ ds, 48 ≤ x.toNat ∧ x.toNat ≤ 57) :
    ParseInt (sign ++ ds) w =
      if -(2 : Int) ^ (w - 1) ≤ literalValue sign ds ∧ literalValue sign ds ≤ 2 ^ (w - 1) - 1
      then (literalValue sign ds, none)
      else (if sign = ['-'] then -(2 : Int) ^ (w - 1) else (2 : Int) ^ (w - 1) - 1,
        some (rangeError "ParseInt".toList (sign ++ ds))) := by
  have hpos : (0 : Int) < 2 ^ (w - 1) := by positivity
  have hcast : ((2 ^ (w - 1) : Nat) : Int) = (2 : Int) ^ (w - 1) := by push_cast; rfl
  rcases hsign with rfl | rfl | rfl
  · cases ds with
    | nil => exact absurd rfl hne
    | cons c cs =>
      have hc := hd c (by simp)
      have hplus : c ≠ '+' := by
        intro e; rw [e] at hc; revert hc; decide
      have hminus : c ≠ '-' := by
        intro e; rw [e] at hc; revert hc; decide
      rw [List.nil_append,
        ParseInt_digits_tail c cs (c :: cs) false w hw (by simp [hplus, hminus])
          (by simp [hplus, hminus]) hne hd]
      simp only [literalValue, List.nil_eq, reduceCtorEq, if_false, true_and, false_and]
      by_cases h : decValue (c :: cs) ≥ 2 ^ (w - 1)
      · have h2 : ¬ (((decValue (c :: cs) : Nat) : Int) ≤ 2 ^ (w - 1) - 1) := by omega
        simp [h, h2]
      · have h2 : ((decValue (c :: cs) : Nat) : Int) ≤ 2 ^ (w - 1) - 1 := by omega
        have h3 : -(2 : Int) ^ (w - 1) ≤ ((decValue (c :: cs) : Nat) : Int) := by omega
        simp [h, h2, h3]
  · rw [List.singleton_append,
      ParseInt_digits_tail '+' ds ds false w hw (by simp) (by simp) hne hd]
    have e1 : (['+'] : List Char) ≠ ['-'] := by decide
    simp only [literalValue, e1, if_false, true_and, false_and]
    by_cases h : decValue ds ≥ 2 ^ (w - 1)
    · have h2 : ¬ (((decValue ds : Nat) : Int) ≤ 2 ^ (w - 1) - 1) := by omega
      simp [h, h2]
    · have h2 : ((decValue ds : Nat) : Int) ≤ 2 ^ (w - 1) - 1 := by omega
      have h3 : -(2 : Int) ^ (w - 1) ≤ ((decValue ds : Nat) : Int) := by omega
      simp [h, h2, h3]
  · rw [List.singleton_append,
      ParseInt_digits_tail '-' ds ds true w hw (by simp) (by decide) hne hd]
    simp only [literalValue, if_true, true_and, false_and, if_false, Bool.true_eq_false]
    by_cases h : decValue ds > 2 ^ (w - 1)
    · have h2 : ¬ (-(2 : Int) ^ (w - 1) ≤ -((decValue ds : Nat) : Int)) := by omega
      simp [h, h2]
    · have h2 : -(2 : Int) ^ (w - 1) ≤ -((decValue ds : Nat) : Int) := by omega
      have h3 : -((decValue ds : Nat) : Int) ≤ 2 ^ (w - 1) - 1 := by omega
      simp [h, h2, h3]

/-- Whatever the string, `ParseInt` at a width the program uses ends without error, or
with a syntax error and the value 0, or with a range error and the bound of the width
on the side of the sign. -/
theorem ParseInt_cases (s : GoString) (w : Nat) (hw : w = 8 ∨ w = 16 ∨ w = 32 ∨ w = 64) :
    (ParseInt s w).2 = none
      ∨ ParseInt s w = (0, some (syntaxError "ParseInt".toList s))
      ∨ ParseInt s w
          = (if s.head? = some '-' then -(2 : Int) ^ (w - 1) else (2 : Int) ^ (w - 1) - 1,
              some (rangeError "ParseInt".toList s)) := by
  cases s with
  | nil => right; left; simp [ParseInt]
  | cons c cs =>
    have hnegc : ∀ b : Bool, (if c = '+' then false else if c = '-' then true else false) = b →
        (b = true ↔ c = '-') := by
      intro b hb
      by_cases hm : c = '-'
      · subst hm; rw [← hb]; decide
      · by_cases hp : c = '+'
        · rw [← hb]; simp [hp, hm]
        · rw [← hb]; simp [hp, hm]
    have key : ∀ un : Nat,
        (ParseIntRange (c :: cs)
            (if c = '+' then false else if c = '-' then true else false) un w).2 = none
        ∨ ParseIntRange (c :: cs)
            (if c = '+' then false else if c = '-' then true else false) un w
          = (if (c :: cs).head? = some '-' then -(2 : Int) ^ (w - 1) else (2 : Int) ^ (w - 1) - 1,
              some (rangeError "ParseInt".toList (c :: cs))) := by
      intro un
      rw [ParseIntRange_eq _ _ un w hw]
      generalize hb : (if c = '+' then false else if c = '-' then true else false) = b
      have hc := hnegc b hb
      cases b with
      | false =>
        have hm : c ≠ '-' := fun e => by simpa using hc.mpr e
        by_cases h : un ≥ 2 ^ (w - 1)
        · right; simp [h, hm]
        · left; simp [h]
      | true =>
        have hm : c = '-' := hc.mp rfl
        by_cases h : un > 2 ^ (w - 1)
        · right; simp [h, hm]
        · left; simp [h]
    have hu := ParseUint_cases (if c = '+' then cs else if c = '-' then cs else c :: cs) w hw
    unfold ParseInt
    simp only []
    cases hp : ParseUint (if c = '+' then cs else if c = '-' then cs else c :: cs) w with
    | mk un err =>
      rw [hp] at hu
      cases err with
      | none =>
        simp only []
        rcases key un with h | h
        · left; exact h
        · right; right; exact h
      | some e =>
        rcases hu with h | h | h
        · simp at h
        · have he : e.Err = ErrSyntax := by
            have := congrArg Prod.snd h
            simp only [Option.some.injEq] at this
            rw [this]; rfl
          have hne : e.Err ≠ ErrRange := by rw [he]; exact ErrSyntax_ne_ErrRange
          right; left
          simp only [he, syntaxError]
          rw [if_pos ErrSyntax_ne_ErrRange]
        · have he : e.Err = ErrRange := by
            have := congrArg Prod.snd h
            simp only [Option.some.injEq] at this
            rw [this]; rfl
          simp only [he, ne_eq, not_true_eq_false, if_false]
          rcases key un with h | h
          · left; exact h
          · right; right; exact h

/-! ## Decimal rendering -/

theorem digitChar_toNat (k : Nat) (h : k < 10) : (Nat.digitChar k).toNat = 48 + k := by
  interval_cases k <;> rfl

theorem toDigitsCore_spec (fuel : Nat) :
    ∀ (n : Nat) (acc : List Char), n < fuel →
      ∃ L : List Char, Nat.toDigitsCore 10 fuel n acc = L ++ acc ∧ L ≠ []
        ∧ (∀ c ∈ L, 48 ≤ c.toNat ∧ c.toNat ≤ 57)
        ∧ ∀ m : Nat, L.foldl (fun a c => 10 * a + (c.toNat - 48)) m = m * 10 ^ L.length + n := by
  induction fuel with
  | zero => intro n acc h; omega
  | succ fuel ih =>
    intro n acc hn
    have hmod : n % 10 < 10 := Nat.mod_lt _ (by decide)
    have hdc := digitChar_toNat (n % 10) hmod
    by_cases h0 : n / 10 = 0
    · refine ⟨[Nat.digitChar (n % 10)], ?_, by simp, ?_, ?_⟩
      · simp [Nat.toDigitsCore, h0]
      · intro c hc
        simp only [List.mem_singleton] at hc
        subst hc
        omega
      · intro m
        simp only [List.foldl_cons, List.foldl_nil, List.length_singleton, pow_one, hdc]
        omega
    · have hlt : n / 10 < fuel := by omega
      obtain ⟨L, hL, _, hdig, hval⟩ := ih (n / 10) (Nat.digitChar (n % 10) :: acc) hlt
      refine ⟨L ++ [Nat.digitChar (n % 10)], ?_, by simp, ?_, ?_⟩
      · simp [Nat.toDigitsCore, h0, hL]
      · intro c hc
        rcases List.mem_append.mp hc with h | h
        · exact hdig c h
        · simp only [List.mem_singleton] at h
          subst h
          omega
      · intro m
        simp only [List.foldl_append, List.foldl_cons, List.foldl_nil, hval m,
          List.length_append, List.length_singleton, hdc, pow_succ]
        have := Nat.div_add_mod n 10
        ring_nf
        omega

/-- The decimal rendering of a natural number is a non-empty string of digits that
denotes the number. -/
theorem toDigits_spec (n : Nat) :
    Nat.toDigits 10 n ≠ [] ∧ (∀ c ∈ Nat.toDigits 10 n, 48 ≤ c.toNat ∧ c.toNat ≤ 57)
      ∧ decValue (Nat.toDigits 10 n) = n := by
  obtain ⟨L, hL, hne, hdig, hval⟩ := toDigitsCore_spec (n + 1) n [] (Nat.lt_succ_self n)
  have e : Nat.toDigits 10 n = L := by
    simp [Nat.toDigits, hL]
  rw [e]
  refine ⟨hne, hdig, ?_⟩
  have := hval 0
  simpa [decValue] using this

theorem toString_ofNat_toList (m : Nat) :
    (toString (Int.ofNat m)).toList = Nat.toDigits 10 m := by
  rfl

theorem toString_negSucc_toList (m : Nat) :
    (toString (Int.negSucc m)).toList = '-' :: Nat.toDigits 10 (m + 1) := by
  rfl

/-! ## Integer coercion: the claims -/

theorem signedBits_width (k : Kind) (w : Nat) (h : signedBits k = some w) :
    w = 8 ∨ w = 16 ∨ w = 32 ∨ w = 64 := by
  cases k <;> simp [signedBits] at h <;> omega

theorem unsignedBits_width (k : Kind) (w : Nat) (h : unsignedBits k = some w) :
    w = 8 ∨ w = 16 ∨ w = 32 ∨ w = 64 := by
  cases k <;> simp [unsignedBits] at h <;> omega

theorem parseToPrimitive_signed (ext : Extern) (field : StructField) (t : RType)
    (val : GoString) (w : Nat) (ht : field.Typ = some t) (hk : signedBits t.Kind = some w) :
    parseToPrimitive ext field val
      = some (Value.int64 (ParseInt val w).1, asError (ParseInt val w).2) := by
  cases hK : t.Kind <;> rw [hK] at hk <;> simp [signedBits] at hk <;> subst hk <;>
    simp [parseToPrimitive, ht, hK]

theorem parseToPrimitive_unsigned (ext : Extern) (field : StructField) (t : RType)
    (val : GoString) (w : Nat) (ht : field.Typ = some t) (hk : unsignedBits t.Kind = some w) :
    parseToPrimitive ext field val
      = some (Value.uint64 (ParseUint val w).1, asError (ParseUint val w).2) := by
  cases hK : t.Kind <;> rw [hK] at hk <;> simp [unsignedBits] at hk <;> subst hk <;>
    simp [parseToPrimitive, ht, hK]

/-- C8 as stated fails: for a field of kind int8 and the raw string `999`,
`parseToPrimitive` returns the value 127 (not 0) with the range error of `ParseInt`. -/
theorem parseToPrimitive_int8_999 :
    parseToPrimitive exExtern exAge "999".toList
        = some (Value.int64 127,
            some (GoError.numError (rangeError "ParseInt".toList "999".toList)))
      ∧ parseToPrimitive exExtern exAge "999".toList
        ≠ some (Value.int64 0,
            some (GoError.numError (rangeError "ParseInt".toList "999".toList))) := by
  constructor <;> decide

/-- C8 (amended): when `parseToPrimitive` fails on a field of a signed or unsigned
integer kind of width `w` (64 for `int` and `uint`), the error is a syntax error and
the value is 0, or the error is a range error and the value is the bound of the width
on the side of the overflow: `2^(w-1) - 1`, or `-2^(w-1)` when the raw string starts
with `-`, for a signed kind, and `2^w - 1` for an unsigned kind. -/
theorem parseToPrimitive_int_failure (ext : Extern) (field : StructField) (t : RType)
    (val : GoString) (w : Nat) (v : Value) (e : GoError) (ht : field.Typ = some t)
    (hres : parseToPrimitive ext field val = some (v, some e)) :
    (signedBits t.Kind = some w →
        (e = GoError.numError (syntaxError "ParseInt".toList val) ∧ v = Value.int64 0)
        ∨ (e = GoError.numError (rangeError "ParseInt".toList val)
            ∧ v = Value.int64
                (if val.head? = some '-' then -(2 : Int) ^ (w - 1) else (2 : Int) ^ (w - 1) - 1)))
      ∧ (unsignedBits t.Kind = some w →
        (e = GoError.numError (syntaxError "ParseUint".toList val) ∧ v = Value.uint64 0)
        ∨ (e = GoError.numError (rangeError "ParseUint".toList val)
            ∧ v = Value.uint64 (2 ^ w - 1))) := by
  constructor
  · intro hk
    have hw := signedBits_width _ _ hk
    rw [parseToPrimitive_signed ext field t val w ht hk] at hres
    simp only [Option.some.injEq, Prod.mk.injEq] at hres
    obtain ⟨hv, he⟩ := hres
    rcases ParseInt_cases val w hw with h | h | h
    · rw [h] at he; simp [asError] at he
    · left
      rw [h] at hv he
      simp only [asError, Option.map_some', Option.some.injEq] at he
      exact ⟨he.symm, hv.symm⟩
    · right
      rw [h] at hv he
      simp only [asError, Option.map_some', Option.some.injEq] at he
      exact ⟨he.symm, hv.symm⟩
  · intro hk
    have hw := unsignedBits_width _ _ hk
    rw [parseToPrimitive_unsigned ext field t val w ht hk] at hres
    simp only [Option.some.injEq, Prod.mk.injEq] at hres
    obtain ⟨hv, he⟩ := hres
    rcases ParseUint_cases val w hw with h | h | h
    · rw [h] at he; simp [asError] at he
    · left
      rw [h] at hv he
      simp only [asError, Option.map_some', Option.some.injEq] at he
      exact ⟨he.symm, hv.symm⟩
    · right
      rw [h] at hv he
      simp only [asError, Option.map_some', Option.some.injEq] at he
      exact ⟨he.symm, hv.symm⟩

/-- Witness of C8 (amended): the int8 field and the raw string `-999`, which fails with
a range error and the value -128. -/
theorem parseToPrimitive_int_failure_witness :
    parseToPrimitive exExtern exAge "-999".toList
        = some (Value.int64 (-128),
            some (GoError.numError (rangeError "ParseInt".toList "-999".toList)))
      ∧ ((GoError.numError (rangeError "ParseInt".toList "-999".toList)
              = GoError.numError (syntaxError "ParseInt".toList "-999".toList)
            ∧ Value.int64 (-128) = Value.int64 0)
          ∨ (GoError.numError (rangeError "ParseInt".toList "-999".toList)
              = GoError.numError (rangeError "ParseInt".toList "-999".toList)
            ∧ Value.int64 (-128) = Value.int64
                (if "-999".toList.head? = some '-' then -(2 : Int) ^ (8 - 1)
                  else (2 : Int) ^ (8 - 1) - 1))) :=
  ⟨by decide,
    (parseToPrimitive_int_failure exExtern exAge (RType.mk Kind.Int8 []) "-999".toList 8
      (Value.int64 (-128)) (GoError.numError (rangeError "ParseInt".toList "-999".toList))
      rfl (by decide)).1 rfl⟩

/-- C9: for every `v` with `-2^63 ≤ v ≤ 2^63 - 1`, `parseToPrimitive` on a field of kind
int64 with the decimal rendering of `v` (an optional `-` and the digits without leading
zeros, as `strconv.FormatInt(v, 10)` writes it) returns `v` and a nil error. -/
theorem parseToPrimitive_int64_roundtrip (ext : Extern) (field : StructField) (t : RType)
    (v : Int) (ht : field.Typ = some t) (hk : t.Kind = Kind.Int64)
    (hlo : -(2 : Int) ^ 63 ≤ v) (hhi : v ≤ 2 ^ 63 - 1) :
    parseToPrimitive ext field (toString v).toList = some (Value.int64 v, none) := by
  have hs : signedBits t.Kind = some 64 := by rw [hk]; rfl
  rw [parseToPrimitive_signed ext field t _ 64 ht hs]
  have hw : (64 : Nat) = 8 ∨ (64 : Nat) = 16 ∨ (64 : Nat) = 32 ∨ (64 : Nat) = 64 := by decide
  cases v with
  | ofNat m =>
    obtain ⟨hne, hdig, hval⟩ := toDigits_spec m
    have hlit := ParseInt_literal [] (Nat.toDigits 10 m) 64 hw (Or.inl rfl) hne hdig
    rw [List.nil_append] at hlit
    rw [toString_ofNat_toList, hlit]
    have hv : literalValue [] (Nat.toDigits 10 m) = Int.ofNat m := by
      simp [literalValue, hval]
    rw [hv]
    have hin : -(2 : Int) ^ (64 - 1) ≤ Int.ofNat m ∧ Int.ofNat m ≤ 2 ^ (64 - 1) - 1 :=
      ⟨hlo, hhi⟩
    rw [if_pos hin]
    rfl
  | negSucc m =>
    obtain ⟨hne, hdig, hval⟩ := toDigits_spec (m + 1)
    have hlit := ParseInt_literal ['-'] (Nat.toDigits 10 (m + 1)) 64 hw
      (Or.inr (Or.inr rfl)) hne hdig
    rw [List.singleton_append] at hlit
    rw [toString_negSucc_toList, hlit]
    have hv : literalValue ['-'] (Nat.toDigits 10 (m + 1)) = Int.negSucc m := by
      simp only [literalValue, if_true, hval]
      rfl
    rw [hv]
    have hin : -(2 : Int) ^ (64 - 1) ≤ Int.negSucc m ∧ Int.negSucc m ≤ 2 ^ (64 - 1) - 1 :=
      ⟨hlo, hhi⟩
    rw [if_pos hin]
    rfl

/-- Witness of C9: the smallest 64-bit integer, `-2^63`, on the int64 field. -/
theorem parseToPrimitive_int64_roundtrip_witness :
    parseToPrimitive exExtern exCount (toString (-9223372036854775808 : Int)).toList
      = some (Value.int64 (-9223372036854775808), none) :=
  parseToPrimitive_int64_roundtrip exExtern exCount (RType.mk Kind.Int64 [])
    (-9223372036854775808) rfl rfl (by decide) (by decide)

/-- C10: on a field of a signed kind of width `w` (8, 16, 32 or 64; 64 for `int`) and a
well-formed decimal literal (an optional sign, then one or more digits) denoting the
integer `v`, `parseToPrimitive` returns an error exactly when `v` lies outside
`[-2^(w-1), 2^(w-1) - 1]`, and returns `v` otherwise; and a field of kind `int` gets
the same result as a field of kind `int64` on every raw string. -/
theorem parseToPrimitive_int_range (ext : Extern) (field : StructField) (t : RType)
    (sign ds : List Char) (w : Nat) (ht : field.Typ = some t)
    (hk : signedBits t.Kind = some w)
    (hsign : sign = [] ∨ sign = ['+'] ∨ sign = ['-'])
    (hne : ds ≠ []) (hd : ∀ c ∈ ds, 48 ≤ c.toNat ∧ c.toNat ≤ 57) :
    (∃ v err, parseToPrimitive ext field (sign ++ ds) = some (v, err)
        ∧ (err ≠ none ↔
            (literalValue sign ds < -(2 : Int) ^ (w - 1)
              ∨ (2 : Int) ^ (w - 1) - 1 < literalValue sign ds))
        ∧ (err = none → v = Value.int64 (literalValue sign ds)))
      ∧ ∀ (f1 f2 : StructField) (t1 t2 : RType) (val : GoString),
          f1.Typ = some t1 → t1.Kind = Kind.Int → f2.Typ = some t2 → t2.Kind = Kind.Int64 →
          parseToPrimitive ext f1 val = parseToPrimitive ext f2 val := by
  constructor
  · have hw := signedBits_width _ _ hk
    rw [parseToPrimitive_signed ext field t _ w ht hk, ParseInt_literal sign ds w hw hsign hne hd]
    by_cases hin : -(2 : Int) ^ (w - 1) ≤ literalValue sign ds
        ∧ literalValue sign ds ≤ 2 ^ (w - 1) - 1
    · rw [if_pos hin]
      refine ⟨_, _, rfl, ?_, fun _ => rfl⟩
      simp only [asError, Option.map_none', ne_eq, not_true_eq_false, false_iff]
      omega
    · rw [if_neg hin]
      refine ⟨_, _, rfl, ?_, ?_⟩
      · simp only [asError, Option.map_some', ne_eq, reduceCtorEq, not_false_eq_true, true_iff]
        omega
      · intro h
        simp [asError] at h
  · intro f1 f2 t1 t2 val h1 hk1 h2 hk2
    rw [parseToPrimitive_signed ext f1 t1 val 64 h1 (by rw [hk1]; rfl),
      parseToPrimitive_signed ext f2 t2 val 64 h2 (by rw [hk2]; rfl)]

/-- Witness of C10: the literal `-129` on the int8 field is out of range. -/
theorem parseToPrimitive_int_range_witness :
    (∃ v err, parseToPrimitive exExtern exAge ("-".toList ++ "129".toList) = some (v, err)
        ∧ (err ≠ none ↔
            (literalValue "-".toList "129".toList < -(2 : Int) ^ (8 - 1)
              ∨ (2 : Int) ^ (8 - 1) - 1 < literalValue "-".toList "129".toList))
        ∧ (err = none → v = Value.int64 (literalValue "-".toList "129".toList)))
      ∧ ∀ (f1 f2 : StructField) (t1 t2 : RType) (val : GoString),
          f1.Typ = some t1 → t1.Kind = Kind.Int → f2.Typ = some t2 → t2.Kind = Kind.Int64 →
          parseToPrimitive exExtern f1 val = parseToPrimitive exExtern f2 val :=
  parseToPrimitive_int_range exExtern exAge (RType.mk Kind.Int8 []) "-".toList "129".toList 8
    rfl rfl (by decide) (by decide) (by decide)

/-! ## Boolean and composite coercion: the claims -/

theorem parseToPrimitive_bool (ext : Extern) (field : StructField) (t : RType)
    (val : GoString) (ht : field.Typ = some t) (hk : t.Kind = Kind.Bool) :
    parseToPrimitive ext field val
      = if (ParseBool val).2 ≠ none then some (Value.bool true, asError (ParseBool val).2)
        else some (Value.bool (ParseBool val).1, asError (ParseBool val).2) := by
  simp [parseToPrimitive, ht, hk]

theorem ParseBool_true (val : GoString) (h : val ∈ trueLiterals) :
    ParseBool val = (true, none) := by
  simp only [trueLiterals, List.mem_cons, List.mem_singleton, List.not_mem_nil, or_false] at h
  rcases h with h | h | h | h | h | h <;> subst h <;> decide

theorem ParseBool_false (val : GoString) (h : val ∈ falseLiterals) :
    ParseBool val = (false, none) := by
  simp only [falseLiterals, List.mem_cons, List.mem_singleton, List.not_mem_nil, or_false] at h
  rcases h with h | h | h | h | h | h <;> subst h <;> decide

theorem ParseBool_other (val : GoString) (h1 : val ∉ trueLiterals) (h2 : val ∉ falseLiterals) :
    ParseBool val = (false, some (syntaxError "ParseBool".toList val)) := by
  simp only [trueLiterals, falseLiterals, List.mem_cons, List.mem_singleton,
    List.not_mem_nil, or_false] at h1 h2
  unfold ParseBool
  rw [if_neg h1, if_neg h2]

/-- C11: on a field of kind bool, a raw string that is not an accepted boolean literal
yields the value `true` with a non-nil error (the syntax error of `ParseBool`);
`true` yields `(true, nil)` and `false` yields `(false, nil)`. -/
theorem parseToPrimitive_bool_failure (ext : Extern) (field : StructField) (t : RType)
    (ht : field.Typ = some t) (hk : t.Kind = Kind.Bool) :
    (∀ val : GoString, val ∉ trueLiterals → val ∉ falseLiterals →
        parseToPrimitive ext field val
          = some (Value.bool true,
              some (GoError.numError (syntaxError "ParseBool".toList val))))
      ∧ parseToPrimitive ext field "true".toList = some (Value.bool true, none)
      ∧ parseToPrimitive ext field "false".toList = some (Value.bool false, none) := by
  refine ⟨?_, ?_, ?_⟩
  · intro val h1 h2
    rw [parseToPrimitive_bool ext field t val ht hk, ParseBool_other val h1 h2]
    simp [asError]
  · rw [parseToPrimitive_bool ext field t _ ht hk, ParseBool_true _ (by decide)]
    simp [asError]
  · rw [parseToPrimitive_bool ext field t _ ht hk, ParseBool_false _ (by decide)]
    simp [asError]

/-- Witness of C11: the bool field, with `notabool` as the rejected raw string. -/
theorem parseToPrimitive_bool_failure_witness :
    parseToPrimitive exExtern exActive "notabool".toList
        = some (Value.bool true,
            some (GoError.numError (syntaxError "ParseBool".toList "notabool".toList)))
      ∧ parseToPrimitive exExtern exActive "true".toList = some (Value.bool true, none)
      ∧ parseToPrimitive exExtern exActive "false".toList = some (Value.bool false, none) :=
  ⟨(parseToPrimitive_bool_failure exExtern exActive (RType.mk Kind.Bool []) rfl rfl).1
      "notabool".toList (by decide) (by decide),
    (parseToPrimitive_bool_failure exExtern exActive (RType.mk Kind.Bool []) rfl rfl).2⟩

/-- C12 as stated fails: `tRuE` equals `true` up to case, yet on a field of kind bool
`parseToPrimitive` returns the syntax error of `ParseBool` for it. -/
theorem parseToPrimitive_bool_mixed_case :
    equalFold "tRuE".toList "true".toList = true
      ∧ parseToPrimitive exExtern exActive "tRuE".toList
        = some (Value.bool true,
            some (GoError.numError (syntaxError "ParseBool".toList "tRuE".toList))) := by
  constructor <;> decide

/-- C12 (amended): on a field of kind bool, each of the raw strings `1`, `t`, `T`,
`true`, `TRUE`, `True` yields `(true, nil)` and each of `0`, `f`, `F`, `false`, `FALSE`,
`False` yields `(false, nil)`. -/
theorem parseToPrimitive_bool_literals (ext : Extern) (field : StructField) (t : RType)
    (ht : field.Typ = some t) (hk : t.Kind = Kind.Bool) :
    (∀ val ∈ trueLiterals, parseToPrimitive ext field val = some (Value.bool true, none))
      ∧ (∀ val ∈ falseLiterals,
          parseToPrimitive ext field val = some (Value.bool false, none)) := by
  constructor
  · intro val h
    rw [parseToPrimitive_bool ext field t val ht hk, ParseBool_true val h]
    simp [asError]
  · intro val h
    rw [parseToPrimitive_bool ext field t val ht hk, ParseBool_false val h]
    simp [asError]

/-- Witness of C12 (amended): `TRUE` and `0` on the bool field. -/
theorem parseToPrimitive_bool_literals_witness :
    parseToPrimitive exExtern exActive "TRUE".toList = some (Value.bool true, none)
      ∧ parseToPrimitive exExtern exActive "0".toList = some (Value.bool false, none) :=
  ⟨(parseToPrimitive_bool_literals exExtern exActive (RType.mk Kind.Bool []) rfl rfl).1
      "TRUE".toList (by decide),
    (parseToPrimitive_bool_literals exExtern exActive (RType.mk Kind.Bool []) rfl rfl).2
      "0".toList (by decide)⟩

/-- C13: whatever the raw string, `parseToPrimitive` returns `("MAP", nil)` on a field
of kind array, map or slice and `("STRUCT", nil)` on a field of kind struct or
interface. -/
theorem parseToPrimitive_composite (ext : Extern) (field : StructField) (t : RType)
    (val : GoString) (ht : field.Typ = some t) :
    ((t.Kind = Kind.Array ∨ t.Kind = Kind.Map ∨ t.Kind = Kind.Slice) →
        parseToPrimitive ext field val = some (Value.string "MAP".toList, none))
      ∧ ((t.Kind = Kind.Struct ∨ t.Kind = Kind.Interface) →
        parseToPrimitive ext field val = some (Value.string "STRUCT".toList, none)) := by
  constructor
  · intro h
    rcases h with h | h | h <;> simp [parseToPrimitive, ht, h]
  · intro h
    rcases h with h | h <;> simp [parseToPrimitive, ht, h]

/-- Witness of C13: the slice field, whatever the raw string. -/
theorem parseToPrimitive_composite_witness :
    parseToPrimitive exExtern exTags "anything".toList
      = some (Value.string "MAP".toList, none) :=
  (parseToPrimitive_composite exExtern exTags (RType.mk Kind.Slice []) "anything".toList
    rfl).1 (Or.inr (Or.inr rfl))

/-! ## Lemmas for the entry point and the remaining path claims -/

theorem takeWhile_of_not_mem (n : GoString) (sep : Char) (h : sep ∉ n) :
    n.takeWhile (fun c => decide (c ≠ sep)) = n := by
  rw [← Split_head, Split_of_not_mem n sep h]
  rfl

theorem takeWhile_not_mem (s : GoString) (sep : Char) :
    sep ∉ s.takeWhile (fun c => decide (c ≠ sep)) := by
  intro h
  have := List.mem_takeWhile_imp h
  simp at this

/-- A path that contains a dot is its first segment, a dot and a remainder. -/
theorem split_at_sep (s : GoString) (sep : Char) (h : sep ∈ s) :
    ∃ rest, s = s.takeWhile (fun c => decide (c ≠ sep)) ++ [sep] ++ rest := by
  induction s with
  | nil => simp at h
  | cons c cs ih =>
    by_cases hc : c = sep
    · refine ⟨cs, ?_⟩
      simp [List.takeWhile, hc]
    · have hcs : sep ∈ cs := by
        rcases List.mem_cons.mp h with e | e
        · exact absurd e.symm hc
        · exact e
      obtain ⟨rest, hr⟩ := ih hcs
      refine ⟨rest, ?_⟩
      simp only [List.takeWhile, hc, ne_eq, not_false_eq_true, decide_True, List.cons_append]
      rw [List.cons_inj_right]
      simpa using hr

/-- On a struct type a single-segment path never yields an error. -/
theorem getFieldByPropType_single (n : GoString) (T : RType) (hK : T.Kind = Kind.Struct)
    (hseg : '.' ∉ n) : ∃ f, getFieldByPropType n T = some (f, none) := by
  by_cases hex : ∃ i f, T.Field i = some f ∧ getPropValue f = n
  · obtain ⟨i, f, hf, ha, hmin⟩ := exists_first_alias T n hex
    refine ⟨f, getFieldByProp_first_single n T i f hK hseg hf ha ?_⟩
    intro j hj g hg hga
    have := hmin j g hg hga
    omega
  · refine ⟨StructField.zero, getFieldByProp_no_match n T hK ?_⟩
    intro i f hf ha
    rw [takeWhile_of_not_mem n '.' hseg] at ha
    exact hex ⟨i, f, hf, ha⟩

theorem getPropValue_eq_nil_iff (f : StructField) : getPropValue f = [] ↔ noAlias f := by
  simp only [getPropValue, firstToken, Split_head, noAlias]
  generalize (f.Tag.Get gongoTag).takeWhile (fun c => decide (c ≠ ',')) = g
  generalize (f.Tag.Get bsonTag).takeWhile (fun c => decide (c ≠ ',')) = b
  generalize (f.Tag.Get jsonTag).takeWhile (fun c => decide (c ≠ ',')) = j
  by_cases hg : g = [] <;> by_cases hb : b = [] <;> simp [hg, hb]

theorem parsePropValue_of_error (ext : Extern) (prop raw : GoString) (s : Option RType)
    (f : StructField) (e : GoError) (h : getFieldByProp prop s none = some (f, some e)) :
    parsePropValue ext prop raw s = some (Value.nil, some e) := by
  simp [parsePropValue, h]

theorem parsePropValue_of_id (ext : Extern) (raw : GoString) (s : Option RType)
    (f : StructField) (h : getFieldByProp "_id".toList s none = some (f, none)) :
    parsePropValue ext "_id".toList raw s
      = some (Value.objectID (ext.ObjectIDFromHex raw).1, (ext.ObjectIDFromHex raw).2) := by
  unfold parsePropValue
  rw [h]
  simp

theorem parsePropValue_id_struct (ext : Extern) (raw : GoString) (T : RType)
    (hK : T.Kind = Kind.Struct) :
    parsePropValue ext "_id".toList raw (some T)
      = some (Value.objectID (ext.ObjectIDFromHex raw).1, (ext.ObjectIDFromHex raw).2) := by
  obtain ⟨f, hf⟩ := getFieldByPropType_single "_id".toList T hK (by decide)
  exact parsePropValue_of_id ext raw (some T) f (by rw [getFieldByProp_nil_rt]; exact hf)

/-! ## Entry point: the claims -/

/-- C14: for every instance of a struct type and every raw string, `parsePropValue`
with the path `_id` returns exactly the value and error of the identifier parser; the
struct is arbitrary, so it holds whether or not a field is aliased `_id` and whatever
the kind of that field. -/
theorem parsePropValue_id (ext : Extern) (raw : GoString) (T : RType)
    (hK : T.Kind = Kind.Struct) :
    parsePropValue ext "_id".toList raw (some T)
      = some (Value.objectID (ext.ObjectIDFromHex raw).1, (ext.ObjectIDFromHex raw).2) := by
  obtain ⟨f, hf⟩ := getFieldByPropType_single "_id".toList T hK (by decide)
  have hloc : getFieldByProp "_id".toList (some T) none = some (f, none) := by
    rw [getFieldByProp_nil_rt]
    exact hf
  exact parsePropValue_of_id ext raw (some T) f hloc

/-- Witness of C14: the example struct, which declares no field aliased `_id`. -/
theorem parsePropValue_id_witness :
    parsePropValue exExtern "_id".toList "5f0c".toList (some exUser)
      = some (Value.objectID (exExtern.ObjectIDFromHex "5f0c".toList).1,
          (exExtern.ObjectIDFromHex "5f0c".toList).2) :=
  parsePropValue_id exExtern "5f0c".toList exUser rfl

/-- C15 as stated fails: for an instance of type `string` and the path `_id`,
`parsePropValue` returns the nil value with the error "bad type" of `getFieldByProp`,
not the result of the identifier parser. -/
theorem parsePropValue_id_bad_type :
    parsePropValue exExtern "_id".toList "5f0c".toList (some exString)
        = some (Value.nil, some (errorsNew "bad type".toList))
      ∧ parsePropValue exExtern "_id".toList "5f0c".toList (some exString)
        ≠ some (Value.objectID (exExtern.ObjectIDFromHex "5f0c".toList).1,
            (exExtern.ObjectIDFromHex "5f0c".toList).2) := by
  constructor <;> decide

/-- C15 (amended): with the path `_id`, `parsePropValue` first runs `getFieldByProp` on
the type of the instance; for an instance of a struct type that never fails and the
result is the identifier parser's, and for an instance of any other type the result is
the nil value with the error "bad type". -/
theorem parsePropValue_id_by_kind (ext : Extern) (raw : GoString) (T : RType) :
    parsePropValue ext "_id".toList raw (some T)
      = if T.Kind = Kind.Struct then
          some (Value.objectID (ext.ObjectIDFromHex raw).1, (ext.ObjectIDFromHex raw).2)
        else some (Value.nil, some (errorsNew "bad type".toList)) := by
  by_cases hK : T.Kind = Kind.Struct
  · rw [if_pos hK]
    exact parsePropValue_id_struct ext raw T hK
  · rw [if_neg hK]
    exact parsePropValue_of_error ext _ raw (some T) StructField.zero _
      (by rw [getFieldByProp_nil_rt]; exact getFieldByPropType_not_struct _ T hK)

/-- C16: when `getFieldByProp` on the path and the type of the instance returns an
error `e`, `parsePropValue` returns the nil value with exactly `e`, whatever the raw
string, the coercer's library functions and the identifier parser. -/
theorem parsePropValue_locator_error (ext : Extern) (prop raw : GoString)
    (s : Option RType) (f : StructField) (e : GoError)
    (h : getFieldByProp prop s none = some (f, some e)) :
    parsePropValue ext prop raw s = some (Value.nil, some e) := by
  unfold parsePropValue
  rw [h]
  simp

/-- Witness of C16: `name.first` on an instance of the example struct. -/
theorem parsePropValue_locator_error_witness :
    parsePropValue exExtern "name.first".toList "x".toList (some exUser)
      = some (Value.nil, some (errorsNew "invalid prop query: name.first".toList)) :=
  parsePropValue_locator_error exExtern "name.first".toList "x".toList (some exUser)
    ⟨"Name".toList, some exString, [(jsonTag, "name".toList)], [0]⟩
    (errorsNew "invalid prop query: name.first".toList) rfl

/-- C17 fails on the code: for an instance of a struct type and a path other than `_id`
whose first segment is the alias of no field, `getFieldByProp` returns the zero-value
descriptor with a nil error and `parsePropValue` passes it to `parseToPrimitive`, whose
`field.Type.Kind()` panics on the nil `Type`: no pair is returned. -/
theorem parsePropValue_not_found_panics (ext : Extern) (prop raw : GoString) (T : RType)
    (hK : T.Kind = Kind.Struct) (hid : prop ≠ "_id".toList)
    (h : ∀ i f, T.Field i = some f →
      getPropValue f ≠ prop.takeWhile (fun c => decide (c ≠ '.'))) :
    getFieldByProp prop (some T) none = some (StructField.zero, none)
      ∧ parseToPrimitive ext StructField.zero raw = none
      ∧ parsePropValue ext prop raw (some T) = none := by
  have hg : getFieldByProp prop (some T) none = some (StructField.zero, none) := by
    rw [getFieldByProp_nil_rt]
    exact getFieldByProp_no_match prop T hK h
  refine ⟨hg, rfl, ?_⟩
  unfold parsePropValue
  rw [hg]
  simp only [ne_eq, not_true_eq_false, if_false, hid]
  rfl

/-- The failing input of C17: the path `phone` on an instance of the example struct. -/
theorem parsePropValue_not_found_panics_witness :
    getFieldByProp "phone".toList (some exUser) none = some (StructField.zero, none)
      ∧ parseToPrimitive exExtern StructField.zero "x".toList = none
      ∧ parsePropValue exExtern "phone".toList "x".toList (some exUser) = none :=
  parsePropValue_not_found_panics exExtern "phone".toList "x".toList exUser rfl (by decide)
    (no_alias_of_forall_mem exUser _ (by
      intro d hd
      simp only [exUser, RType.fields, List.mem_cons, List.mem_singleton,
        List.not_mem_nil, or_false] at hd
      rcases hd with h | h | h | h | h <;> subst h <;> decide))

/-! ## Interface fields and the empty path: the claims -/

/-- C19: on a struct type, for a path with at least two segments (it contains a dot)
whose first segment is matched first by a field of kind interface, `getFieldByProp`
returns the zero-value descriptor with the error "bad type": the recursion runs on the
interface type, which is not a struct. -/
theorem getFieldByProp_interface (prop : GoString) (s : Option RType) (T U : RType)
    (i : Nat) (f : StructField) (hK : T.Kind = Kind.Struct) (hdot : '.' ∈ prop)
    (hf : T.Field i = some f)
    (hm : getPropValue f = prop.takeWhile (fun c => decide (c ≠ '.')))
    (hfirst : ∀ j, j < i → ∀ g, T.Field j = some g →
      getPropValue g ≠ prop.takeWhile (fun c => decide (c ≠ '.')))
    (hU : f.Typ = some U) (hUK : U.Kind = Kind.Interface) :
    getFieldByProp prop s (some T)
        = some (StructField.zero, some (errorsNew "bad type".toList))
      ∧ getFieldByProp prop (some T) none
        = some (StructField.zero, some (errorsNew "bad type".toList)) := by
  obtain ⟨rest, hr⟩ := split_at_sep prop '.' hdot
  have hnot : U.Kind ≠ Kind.Struct := by rw [hUK]; decide
  have key : getFieldByPropType prop T
      = some (StructField.zero, some (errorsNew "bad type".toList)) := by
    have h1 := getFieldByProp_first_nested (prop.takeWhile (fun c => decide (c ≠ '.'))) rest
      T U i f hK (takeWhile_not_mem prop '.') hf hm hfirst hU (Or.inr hUK)
    rw [← hr] at h1
    rw [h1]
    exact getFieldByPropType_not_struct rest U hnot
  rw [getFieldByProp_some, getFieldByProp_nil_rt]
  exact ⟨key, key⟩

/-- Witness of C19: `any.x` on the example struct, whose field `any` is an interface. -/
theorem getFieldByProp_interface_witness :
    getFieldByProp "any.x".toList none (some exUser)
        = some (StructField.zero, some (errorsNew "bad type".toList))
      ∧ getFieldByProp "any.x".toList (some exUser) none
        = some (StructField.zero, some (errorsNew "bad type".toList)) :=
  getFieldByProp_interface "any.x".toList none exUser exAny 3
    ⟨"Any".toList, some exAny, [(jsonTag, "any".toList)], [3]⟩ rfl (by decide) rfl
    (by decide)
    (by
      intro j hj g hg
      have hj3 : j = 0 ∨ j = 1 ∨ j = 2 := by omega
      rcases hj3 with h | h | h <;> subst h <;>
        (have hg2 := (Option.some.inj hg).symm; subst hg2; decide))
    rfl rfl

/-- C20: on a struct type with at least one field that declares no alias (empty first
token in the three tags), the empty path yields, with a nil error, the first such
field in declaration order. -/
theorem getFieldByProp_empty_path (T : RType) (s : Option RType)
    (hK : T.Kind = Kind.Struct) (hex : ∃ i f, T.Field i = some f ∧ noAlias f) :
    ∃ i f, T.Field i = some f ∧ noAlias f
      ∧ (∀ j g, T.Field j = some g → noAlias g → i ≤ j)
      ∧ getFieldByProp [] s (some T) = some (f, none)
      ∧ getFieldByProp [] (some T) none = some (f, none) := by
  obtain ⟨i0, f0, hf0, hn0⟩ := hex
  obtain ⟨i, f, hf, ha, hmin⟩ :=
    exists_first_alias T [] ⟨i0, f0, hf0, (getPropValue_eq_nil_iff f0).mpr hn0⟩
  have hfirst : ∀ j, j < i → ∀ g, T.Field j = some g → getPropValue g ≠ [] := by
    intro j hj g hg hga
    have := hmin j g hg hga
    omega
  have key := getFieldByProp_first_single [] T i f hK (by simp) hf ha hfirst
  refine ⟨i, f, hf, (getPropValue_eq_nil_iff f).mp ha, ?_, ?_, ?_⟩
  · intro j g hg hn
    exact hmin j g hg ((getPropValue_eq_nil_iff g).mpr hn)
  · rw [getFieldByProp_some]; exact key
  · rw [getFieldByProp_nil_rt]; exact key

/-- Witness of C20: the struct with the untagged fields `Secret` (index 1) and `Hidden`
(index 2). -/
theorem getFieldByProp_empty_path_witness :
    ∃ i f, exDoc.Field i = some f ∧ noAlias f
      ∧ (∀ j g, exDoc.Field j = some g → noAlias g → i ≤ j)
      ∧ getFieldByProp [] none (some exDoc) = some (f, none)
      ∧ getFieldByProp [] (some exDoc) none = some (f, none) :=
  getFieldByProp_empty_path exDoc none rfl
    ⟨2, ⟨"Hidden".toList, some exString, [], [2]⟩, rfl, ⟨rfl, rfl, rfl⟩⟩

/-! ## Successful resolutions: the claim -/

theorem Split_cons_cons (s p0 q : GoString) (qs : List GoString)
    (h : Split s '.' = p0 :: q :: qs) :
    ∃ rest, s = p0 ++ ['.'] ++ rest ∧ '.' ∉ p0 ∧ Split rest '.' = q :: qs := by
  have hmem : '.' ∈ s := by
    by_contra hn
    rw [Split_of_not_mem s '.' hn] at h
    simp at h
  obtain ⟨rest, hr⟩ := split_at_sep s '.' hmem
  have hnot := takeWhile_not_mem s '.'
  have hs : Split s '.' = s.takeWhile (fun c => decide (c ≠ '.')) :: Split rest '.' := by
    have := Split_append_sep (s.takeWhile (fun c => decide (c ≠ '.'))) rest '.' hnot
    rw [← this]
    congr 1
    simpa using hr
  rw [hs] at h
  simp only [List.cons.injEq] at h
  obtain ⟨h1, h2⟩ := h
  refine ⟨rest, ?_, ?_, h2⟩
  · rw [← h1]; exact hr
  · rw [← h1]; exact hnot

theorem toField_ne_zero (d : FieldDecl) (i : Nat) : d.toField i ≠ StructField.zero := by
  cases d with
  | mk n t tg =>
    intro h
    have := congrArg StructField.Index h
    simp [FieldDecl.toField, StructField.zero] at this

/-- A successful resolution to a declared field follows a chain of struct-kind fields
and ends on a field whose alias is the last segment. -/
theorem chain_of_success (n : Nat) :
    ∀ (path : GoString) (T : RType) (f : StructField),
      (Split path '.').length = n →
      getFieldByPropType path T = some (f, none) → f ≠ StructField.zero →
      ChainMatches (Split path '.') T f
        ∧ (Split path '.').getLast? = some (getPropValue f) := by
  induction n with
  | zero =>
    intro path T f hlen
    have := Split_ne_nil path '.'
    simp at hlen
    exact absurd hlen this
  | succ n ih =>
    intro path T f hlen hres hnz
    have hK : T.Kind = Kind.Struct := by
      by_contra hK
      rw [getFieldByPropType_not_struct path T hK] at hres
      simp at hres
    have hhead := Split_head path '.'
    by_cases hex : ∃ i g, T.Field i = some g
        ∧ getPropValue g = path.takeWhile (fun c => decide (c ≠ '.'))
    · obtain ⟨i, g, hg, hga, hmin⟩ := exists_first_alias T _ hex
      have hfirst : ∀ j, j < i → ∀ h, T.Field j = some h →
          getPropValue h ≠ path.takeWhile (fun c => decide (c ≠ '.')) := by
        intro j hj h hh hha
        have := hmin j h hh hha
        omega
      cases hs : Split path '.' with
      | nil => exact absurd hs (Split_ne_nil path '.')
      | cons p0 ps =>
        rw [hs] at hhead hlen
        simp only [List.headD_cons] at hhead
        rw [← hhead] at hga hfirst
        cases ps with
        | nil =>
          have hnd : '.' ∉ path := by
            intro hm
            have := Split_length_two_le path '.' hm
            rw [hs] at this
            simp at this
          have hp : path = p0 := by
            have := Split_of_not_mem path '.' hnd
            rw [hs] at this
            simpa using this.symm
          subst hp
          rw [getFieldByProp_first_single path T i g hK hnd hg hga hfirst] at hres
          simp only [Option.some.injEq, Prod.mk.injEq, and_true] at hres
          subst hres
          exact ⟨⟨hK, i, hg, hga, hfirst⟩, by simp [hga]⟩
        | cons q qs =>
          obtain ⟨rest, hpath, hnd, hrest⟩ := Split_cons_cons path p0 q qs hs
          obtain ⟨d, _, hgd⟩ := Field_eq_some T i g hg
          obtain ⟨U, hU⟩ := toField_Typ d i
          rw [← hgd] at hU
          by_cases hUS : U.Kind = Kind.Struct
          · have hnest := getFieldByProp_first_nested p0 rest T U i g hK hnd hg hga hfirst
              hU (Or.inl hUS)
            rw [← hpath] at hnest
            rw [hnest] at hres
            have hlen2 : (Split rest '.').length = n := by
              rw [hrest]
              simp only [List.length_cons] at hlen ⊢
              omega
            obtain ⟨hc, hl⟩ := ih rest U f hlen2 hres hnz
            rw [hrest] at hc hl
            refine ⟨⟨hK, i, g, U, hg, hga, hfirst, hU, hUS, hc⟩, ?_⟩
            rw [List.getLast?_cons_cons]
            exact hl
          · by_cases hUI : U.Kind = Kind.Interface
            · have hnest := getFieldByProp_first_nested p0 rest T U i g hK hnd hg hga hfirst
                hU (Or.inr hUI)
              rw [← hpath] at hnest
              rw [hnest, getFieldByPropType_not_struct rest U hUS] at hres
              simp at hres
            · have hdot : '.' ∈ path := by rw [hpath]; simp
              have hhead2 := Split_head path '.'
              rw [hs] at hhead2
              simp only [List.headD_cons] at hhead2
              rw [hhead2] at hga hfirst
              rw [getFieldByProp_first_leaf path T i g hK hdot hg hga hfirst (by
                intro u hu
                rw [hU] at hu
                cases Option.some.inj hu
                exact ⟨hUS, hUI⟩)] at hres
              simp at hres
    · have hno : ∀ i g, T.Field i = some g →
          getPropValue g ≠ path.takeWhile (fun c => decide (c ≠ '.')) := by
        intro i g hg hga
        exact hex ⟨i, g, hg, hga⟩
      rw [getFieldByProp_no_match path T hK hno] at hres
      simp only [Option.some.injEq, Prod.mk.injEq, and_true] at hres
      exact absurd hres.symm hnz

/-- C18: on a struct type, when `getFieldByProp` returns a nil error and a descriptor
that is not the zero value, the alias of the returned field is the last dot-separated
segment of the path, and the segments resolve along a chain of struct-kind fields (each
earlier segment is the alias of a field of kind struct, the first with that alias at
its level). -/
theorem getFieldByProp_success_chain (path : GoString) (s : Option RType) (T : RType)
    (f : StructField) (_hK : T.Kind = Kind.Struct)
    (hres : getFieldByProp path s (some T) = some (f, none)) (hnz : f ≠ StructField.zero) :
    (Split path '.').getLast? = some (getPropValue f)
      ∧ ChainMatches (Split path '.') T f := by
  rw [getFieldByProp_some] at hres
  obtain ⟨hc, hl⟩ := chain_of_success (Split path '.').length path T f rfl hres hnz
  exact ⟨hl, hc⟩

/-- Witness of C18: `addr.zip` on the example struct resolves to `Zip` of the address
struct. -/
theorem getFieldByProp_success_chain_witness :
    (Split "addr.zip".toList '.').getLast?
        = some (getPropValue
            ⟨"Zip".toList, some exString, [(jsonTag, "zip,omitempty".toList)], [1]⟩)
      ∧ ChainMatches (Split "addr.zip".toList '.') exUser
          ⟨"Zip".toList, some exString, [(jsonTag, "zip,omitempty".toList)], [1]⟩ :=
  getFieldByProp_success_chain "addr.zip".toList none exUser
    ⟨"Zip".toList, some exString, [(jsonTag, "zip,omitempty".toList)], [1]⟩ rfl rfl
    (by
      intro h
      have h2 := congrArg StructField.Index h
      revert h2
      decide)

end Gongo
